import Mathlib

/-!
Verification development for the datatidy transformation core.

The Lean definitions below are a shallow embedding of the Python source:

  * `src/datatidy/transformation/expressions.py`  (SafeExpressionParser, ExpressionParser)
  * `src/datatidy/transformation/dependency_resolver.py`  (DependencyAnalyzer,
    DependencyResolver, ColumnExecutionEngine)
  * `src/datatidy/transformation/engine.py`  (TransformationEngine)
  * `src/datatidy/fallback/processor.py`  (FallbackProcessor)
  * `src/datatidy/transformation/column_operations.py`  (FilterOperation)

Modelling conventions, used throughout:

  * Python expressions are embedded at the level of Python's `ast` (the source
    always goes through `ast.parse(expression, mode="eval")` first); the Lean
    type `PyExpr` mirrors the `ast` node kinds that can occur in an `eval`-mode
    expression.  Concrete expression strings appearing in claims are written as
    their (unambiguous) parsed trees, e.g. `"a + b"` is
    `.binOp (.name "a") .add (.name "b")`.
  * Python `int` is `Int`; results of true division are exact rationals (`ℚ`);
    no claim inspects a non-integral numeric result.
  * pandas Series are `vSeries` values carrying their element list; arithmetic
    on them broadcasts elementwise exactly as the overloaded operators do.
  * Exceptions are `Except`: the structured error constructors correspond to
    the distinct Python exception kinds (`ValueError` raised by `_validate_ast`,
    `NameError`, evaluation-time errors); `SafeExpressionParser.parse` wraps all
    of them in a `ValueError` whose message keeps the original text, so the
    kinds stay observable and the structured model is faithful.
  * Python `dict`s preserve insertion order; they are association lists here.
    Python `set`s are deduplicated lists; every place a set's *iteration order*
    could influence a verified statement is noted at the definition.
-/

namespace DataTidy

/-! ## Values

Runtime values of the restricted interpreter: Python scalars, containers,
pandas Series (`vSeries`), the safe builtin functions (`vBuiltin`) and bound
string methods (`vMethod`).  `vNan`/`vInf` model `np.nan`/`np.inf`, which the
surrounding `ExpressionParser` always injects into the context. -/

inductive Value where
  | vInt (n : Int)
  | vRat (q : ℚ)
  | vStr (s : String)
  | vBool (b : Bool)
  | vNone
  | vNan
  | vInf
  | vList (xs : List Value)
  | vTuple (xs : List Value)
  | vDict (pairs : List (Value × Value))
  | vSeries (xs : List Value)
  | vBuiltin (name : String)
  | vMethod (recv : Value) (method : String)
deriving Repr

/-! ## Abstract syntax

`PyExpr` mirrors the Python `ast` node kinds reachable from
`ast.parse(_, mode="eval")` that the development needs.  `lambda_`,
`joinedStr` (f-strings) and `namedExpr` (walrus) are *legal* Python
eval-mode nodes that are **not** in `_validate_ast`'s whitelist; they are the
inhabitants of "syntax node outside the fixed whitelist".  Comprehension and
starred nodes (also legal, also treated uniformly by the source: comprehensions
are whitelisted, `Starred` is rejected) are not needed by any claim and are
omitted from the embedding. -/

inductive BinOperator where
  | add | sub | mult | div | floorDiv | modOp | powOp
  | lShift | rShift | bitOr | bitXor | bitAnd
  | matMult
deriving Repr, DecidableEq

inductive UnaryOperator where
  | uAdd | uSub | notOp | invert
deriving Repr, DecidableEq

inductive CmpOperator where
  | eq | notEq | lt | ltE | gt | gtE | isOp | isNotOp | inOp | notInOp
deriving Repr, DecidableEq

inductive BoolOperator where
  | andOp | orOp
deriving Repr, DecidableEq

inductive PyConst where
  | int (n : Int)
  | str (s : String)
  | bool (b : Bool)
  | none
deriving Repr

inductive PyExpr where
  | const (c : PyConst)
  | name (id : String)
  | binOp (left : PyExpr) (op : BinOperator) (right : PyExpr)
  | unaryOp (op : UnaryOperator) (operand : PyExpr)
  | compare (left : PyExpr) (ops : List CmpOperator) (comparators : List PyExpr)
  | boolOp (op : BoolOperator) (values : List PyExpr)
  | ifExp (test : PyExpr) (body : PyExpr) (orelse : PyExpr)
  | call (func : PyExpr) (args : List PyExpr)
  | attr (value : PyExpr) (attrName : String)
  | subscript (value : PyExpr) (index : PyExpr)
  | listLit (elts : List PyExpr)
  | tupleLit (elts : List PyExpr)
  | dictLit (keys : List PyExpr) (values : List PyExpr)
  | lambda_ (params : List String) (body : PyExpr)
  | joinedStr (values : List PyExpr)
  | namedExpr (target : String) (value : PyExpr)
deriving Repr

/-! ## The SAFE_OPERATORS table (`SafeExpressionParser.SAFE_OPERATORS`)

The dictionary keys are exactly the listed `ast` operator classes; membership
tests on it become the three functions below.  Note `ast.MatMult` (`@`) is the
one binary operator *not* in the table. -/

def safeBinOperator : BinOperator → Bool
  | .matMult => false
  | _ => true

def safeUnaryOperator : UnaryOperator → Bool
  | _ => true

def safeCmpOperator : CmpOperator → Bool
  | _ => true

def binOperatorName : BinOperator → String
  | .add => "Add" | .sub => "Sub" | .mult => "Mult" | .div => "Div"
  | .floorDiv => "FloorDiv" | .modOp => "Mod" | .powOp => "Pow"
  | .lShift => "LShift" | .rShift => "RShift" | .bitOr => "BitOr"
  | .bitXor => "BitXor" | .bitAnd => "BitAnd" | .matMult => "MatMult"

/-- The names bound by `SafeExpressionParser.SAFE_FUNCTIONS`. -/
def SAFE_FUNCTIONS : List String :=
  ["abs", "max", "min", "round", "len", "str", "int", "float", "bool",
   "sum", "any", "all", "sorted", "reversed", "enumerate", "zip", "range",
   "list", "tuple", "set", "dict"]

/-- The names in `SafeExpressionParser.STRING_METHODS`. -/
def STRING_METHODS : List String :=
  ["upper", "lower", "title", "capitalize", "strip", "lstrip", "rstrip",
   "replace", "split", "join", "startswith", "endswith", "find", "count",
   "isdigit", "isalpha", "isalnum", "isspace", "isupper", "islower"]

/-! ## Static validation (`SafeExpressionParser._validate_ast`)

The source walks every node with `ast.walk` and raises `ValueError` at the
first node whose kind (or operator) is outside the whitelist.  The recursive
function below fails iff such a node exists anywhere in the tree; only which
offending node gets reported first can differ from `ast.walk`'s breadth-first
order, and no statement below depends on the message of a validation error,
only on whether one is raised. -/

mutual

def validateAst : PyExpr → Except String Unit
  | .const _ => .ok ()
  | .name _ => .ok ()
  | .binOp l op r =>
      if safeBinOperator op then do
        validateAst l
        validateAst r
      else .error ("Unsafe binary operator: " ++ binOperatorName op)
  | .unaryOp op e =>
      if safeUnaryOperator op then validateAst e
      else .error "Unsafe unary operator"
  | .compare l ops comps =>
      if ops.all safeCmpOperator then do
        validateAst l
        validateAstList comps
      else .error "Unsafe comparison operator"
  | .boolOp _ values => validateAstList values
  | .ifExp t b o => do
      validateAst t
      validateAst b
      validateAst o
  | .call f args => do
      validateAst f
      validateAstList args
  | .attr v _ => validateAst v
  | .subscript v i => do
      validateAst v
      validateAst i
  | .listLit elts => validateAstList elts
  | .tupleLit elts => validateAstList elts
  | .dictLit keys values => do
      validateAstList keys
      validateAstList values
  | .lambda_ _ _ => .error "Unsafe AST node type: Lambda"
  | .joinedStr _ => .error "Unsafe AST node type: JoinedStr"
  | .namedExpr _ _ => .error "Unsafe AST node type: NamedExpr"

def validateAstList : List PyExpr → Except String Unit
  | [] => .ok ()
  | e :: es => do
      validateAst e
      validateAstList es

end

/-- `unsafeNode e` holds when the *root* node of `e` is outside the whitelist
of `_validate_ast` (an unlisted node kind, or a `BinOp`/`UnaryOp`/`Compare`
carrying an operator missing from `SAFE_OPERATORS`). -/
def unsafeNode : PyExpr → Bool
  | .binOp _ op _ => !safeBinOperator op
  | .unaryOp op _ => !safeUnaryOperator op
  | .compare _ ops _ => !ops.all safeCmpOperator
  | .lambda_ _ _ => true
  | .joinedStr _ => true
  | .namedExpr _ _ => true
  | _ => false

mutual

/-- `hasUnsafeNode e` holds when some node of `e`'s tree (the nodes `ast.walk`
visits) is outside the whitelist. -/
def hasUnsafeNode : PyExpr → Bool
  | .const _ => false
  | .name _ => false
  | .binOp l op r => !safeBinOperator op || hasUnsafeNode l || hasUnsafeNode r
  | .unaryOp op e => !safeUnaryOperator op || hasUnsafeNode e
  | .compare l ops comps =>
      !ops.all safeCmpOperator || hasUnsafeNode l || hasUnsafeNodeList comps
  | .boolOp _ values => hasUnsafeNodeList values
  | .ifExp t b o => hasUnsafeNode t || hasUnsafeNode b || hasUnsafeNode o
  | .call f args => hasUnsafeNode f || hasUnsafeNodeList args
  | .attr v _ => hasUnsafeNode v
  | .subscript v i => hasUnsafeNode v || hasUnsafeNode i
  | .listLit elts => hasUnsafeNodeList elts
  | .tupleLit elts => hasUnsafeNodeList elts
  | .dictLit keys values => hasUnsafeNodeList keys || hasUnsafeNodeList values
  | .lambda_ _ _ => true
  | .joinedStr _ => true
  | .namedExpr _ _ => true

def hasUnsafeNodeList : List PyExpr → Bool
  | [] => false
  | e :: es => hasUnsafeNode e || hasUnsafeNodeList es

end

/-! ## Evaluation (`SafeExpressionParser._eval_node`) -/

/-- Structured error kinds of `SafeExpressionParser.parse`.  The source wraps
each of them in `ValueError("Error parsing expression '...': " + str(e))`; the
three kinds stay distinguishable through the preserved message text
(`"Unsafe ..."` from `_validate_ast`, `"Name '...' is not defined"` from the
`NameError`, anything else from evaluation). -/
inductive ParseErr where
  | unsafeConstruct (msg : String)
  | unknownBinding (name : String)
  | evalError (msg : String)
deriving Repr

abbrev Ctx := List (String × Value)

/-- Numeric view shared by comparison/arithmetic: Python treats `bool` as the
integers 0/1. -/
def toRat? : Value → Option ℚ
  | .vInt n => some (n : ℚ)
  | .vRat q => some q
  | .vBool b => some (if b then 1 else 0)
  | _ => Option.none

/-- Python truthiness (`bool(x)`).  On a pandas Series the source would hit
pandas' "truth value of a Series is ambiguous" `ValueError`. -/
def truthy : Value → Except ParseErr Bool
  | .vInt n => .ok (n ≠ 0)
  | .vRat q => .ok (q ≠ 0)
  | .vStr s => .ok (s ≠ "")
  | .vBool b => .ok b
  | .vNone => .ok false
  | .vNan => .ok true
  | .vInf => .ok true
  | .vList xs => .ok (!xs.isEmpty)
  | .vTuple xs => .ok (!xs.isEmpty)
  | .vDict ps => .ok (!ps.isEmpty)
  | .vSeries _ => .error (.evalError "The truth value of a Series is ambiguous")
  | .vBuiltin _ => .ok true
  | .vMethod _ _ => .ok true

mutual

/-- Python `==` as a boolean function (`operator.eq`).  Numbers compare across
`int`/`float`/`bool`; `nan == nan` is `False`; containers compare
elementwise; values of unrelated kinds are unequal. -/
def pyEq : Value → Value → Bool
  | .vStr a, .vStr b => a == b
  | .vNone, .vNone => true
  | .vNan, _ => false
  | _, .vNan => false
  | .vList a, .vList b => pyEqList a b
  | .vTuple a, .vTuple b => pyEqList a b
  | .vInf, .vInf => true
  | a, b =>
      match toRat? a, toRat? b with
      | some x, some y => x == y
      | _, _ => false

def pyEqList : List Value → List Value → Bool
  | [], [] => true
  | a :: as_, b :: bs => pyEq a b && pyEqList as_ bs
  | _, _ => false

end

/-- Lift a scalar binary semantic function to pandas-style elementwise
broadcasting when either operand is a Series (the overloaded Series
operators). -/
def broadcast2 (f : Value → Value → Except ParseErr Value) :
    Value → Value → Except ParseErr Value
  | .vSeries xs, .vSeries ys => do
      let zs ← (xs.zip ys).mapM (fun p => f p.1 p.2)
      .ok (.vSeries zs)
  | .vSeries xs, b => do
      let zs ← xs.mapM (fun a => f a b)
      .ok (.vSeries zs)
  | a, .vSeries ys => do
      let zs ← ys.mapM (fun b => f a b)
      .ok (.vSeries zs)
  | a, b => f a b

/-- Exact rational division (`a / b` over `ℚ` written through `mkRat` so that
the kernel evaluates it). -/
def ratDiv (a b : ℚ) : ℚ := mkRat (a.num * b.den) (a.den * (b.num.natAbs)) * (if b.num < 0 then -1 else 1)

def typeError (opName : String) : Except ParseErr Value :=
  .error (.evalError ("unsupported operand type(s) for " ++ opName))

/-- Scalar semantics of each operator in `SAFE_OPERATORS` (the `operator`
module functions the table maps to).  Cases no claim exercises are kept to the
combinations Python actually supports; unsupported combinations raise, just as
Python's `TypeError` would. -/
def applyScalarBinOp (op : BinOperator) (a b : Value) : Except ParseErr Value :=
  match op with
  | .add =>
      match a, b with
      | .vStr x, .vStr y => .ok (.vStr (x ++ y))
      | .vList x, .vList y => .ok (.vList (x ++ y))
      | .vInt x, .vInt y => .ok (.vInt (x + y))
      | _, _ =>
          match toRat? a, toRat? b with
          | some x, some y => .ok (.vRat (x + y))
          | _, _ => typeError "+"
  | .sub =>
      match a, b with
      | .vInt x, .vInt y => .ok (.vInt (x - y))
      | _, _ =>
          match toRat? a, toRat? b with
          | some x, some y => .ok (.vRat (x - y))
          | _, _ => typeError "-"
  | .mult =>
      match a, b with
      | .vInt x, .vInt y => .ok (.vInt (x * y))
      | .vStr s, .vInt n => .ok (.vStr (String.join (List.replicate n.toNat s)))
      | .vInt n, .vStr s => .ok (.vStr (String.join (List.replicate n.toNat s)))
      | _, _ =>
          match toRat? a, toRat? b with
          | some x, some y => .ok (.vRat (x * y))
          | _, _ => typeError "*"
  | .div =>
      match toRat? a, toRat? b with
      | some x, some y =>
          if y = 0 then .error (.evalError "division by zero")
          else .ok (.vRat (ratDiv x y))
      | _, _ => typeError "/"
  | .floorDiv =>
      match a, b with
      | .vInt x, .vInt y =>
          if y = 0 then .error (.evalError "integer division or modulo by zero")
          else .ok (.vInt (Int.fdiv x y))
      | _, _ => typeError "//"
  | .modOp =>
      match a, b with
      | .vInt x, .vInt y =>
          if y = 0 then .error (.evalError "integer division or modulo by zero")
          else .ok (.vInt (Int.fmod x y))
      | _, _ => typeError "%"
  | .powOp =>
      match a, b with
      | .vInt x, .vInt y =>
          if 0 ≤ y then .ok (.vInt (x ^ y.toNat))
          else if x = 0 then .error (.evalError "0.0 cannot be raised to a negative power")
          else .ok (.vRat (ratDiv 1 ((x : ℚ) ^ (-y).toNat)))
      | _, _ => typeError "**"
  | .lShift =>
      match a, b with
      | .vInt x, .vInt y =>
          if 0 ≤ y then .ok (.vInt (x * (2 ^ y.toNat))) else .error (.evalError "negative shift count")
      | _, _ => typeError "<<"
  | .rShift =>
      match a, b with
      | .vInt x, .vInt y =>
          if 0 ≤ y then .ok (.vInt (Int.fdiv x (2 ^ y.toNat))) else .error (.evalError "negative shift count")
      | _, _ => typeError ">>"
  | .bitOr =>
      match a, b with
      | .vBool x, .vBool y => .ok (.vBool (x || y))
      | .vInt x, .vInt y =>
          if 0 ≤ x ∧ 0 ≤ y then .ok (.vInt (Nat.lor x.toNat y.toNat)) else typeError "|"
      | _, _ => typeError "|"
  | .bitXor =>
      match a, b with
      | .vBool x, .vBool y => .ok (.vBool (xor x y))
      | .vInt x, .vInt y =>
          if 0 ≤ x ∧ 0 ≤ y then .ok (.vInt (Nat.xor x.toNat y.toNat)) else typeError "^"
      | _, _ => typeError "^"
  | .bitAnd =>
      match a, b with
      | .vBool x, .vBool y => .ok (.vBool (x && y))
      | .vInt x, .vInt y =>
          if 0 ≤ x ∧ 0 ≤ y then .ok (.vInt (Nat.land x.toNat y.toNat)) else typeError "&"
      | _, _ => typeError "&"
  | .matMult => typeError "@"

def applyBinOp (op : BinOperator) : Value → Value → Except ParseErr Value :=
  broadcast2 (applyScalarBinOp op)

/-- Python membership (`x in y`), the semantics behind both `In` and `NotIn`
in `SAFE_OPERATORS`. -/
def pyIn (a b : Value) : Except ParseErr Value :=
  match b with
  | .vList xs => .ok (.vBool (xs.any (pyEq a)))
  | .vTuple xs => .ok (.vBool (xs.any (pyEq a)))
  | .vDict ps => .ok (.vBool (ps.any (fun p => pyEq a p.1)))
  | .vStr hay =>
      match a with
      | .vStr needle => .ok (.vBool (decide (1 < (hay.splitOn needle).length)))
      | _ => typeError "in"
  | _ => typeError "in"

def applyScalarCmpOp (op : CmpOperator) (a b : Value) : Except ParseErr Value :=
  match op with
  | .eq => .ok (.vBool (pyEq a b))
  | .notEq => .ok (.vBool (!pyEq a b))
  | .lt =>
      match a, b with
      | .vStr x, .vStr y => .ok (.vBool (decide (x < y)))
      | _, _ =>
          match toRat? a, toRat? b with
          | some x, some y => .ok (.vBool (decide (x < y)))
          | _, _ => typeError "<"
  | .ltE =>
      match a, b with
      | .vStr x, .vStr y => .ok (.vBool (decide (x ≤ y)))
      | _, _ =>
          match toRat? a, toRat? b with
          | some x, some y => .ok (.vBool (decide (x ≤ y)))
          | _, _ => typeError "<="
  | .gt =>
      match a, b with
      | .vStr x, .vStr y => .ok (.vBool (decide (y < x)))
      | _, _ =>
          match toRat? a, toRat? b with
          | some x, some y => .ok (.vBool (decide (y < x)))
          | _, _ => typeError ">"
  | .gtE =>
      match a, b with
      | .vStr x, .vStr y => .ok (.vBool (decide (y ≤ x)))
      | _, _ =>
          match toRat? a, toRat? b with
          | some x, some y => .ok (.vBool (decide (y ≤ x)))
          | _, _ => typeError ">="
  | .isOp => .ok (.vBool (pyEq a b))
  | .isNotOp => .ok (.vBool (!pyEq a b))
  | .inOp => pyIn a b
  | .notInOp => do
      let r ← pyIn a b
      match r with
      | .vBool v => .ok (.vBool (!v))
      | _ => typeError "not in"

def applyCmpOp (op : CmpOperator) : Value → Value → Except ParseErr Value :=
  broadcast2 (applyScalarCmpOp op)

def applyScalarUnaryOp (op : UnaryOperator) (a : Value) : Except ParseErr Value :=
  match op with
  | .uAdd =>
      match a with
      | .vInt n => .ok (.vInt n)
      | .vRat q => .ok (.vRat q)
      | .vBool b => .ok (.vInt (if b then 1 else 0))
      | _ => typeError "unary +"
  | .uSub =>
      match a with
      | .vInt n => .ok (.vInt (-n))
      | .vRat q => .ok (.vRat (-q))
      | .vBool b => .ok (.vInt (if b then -1 else 0))
      | _ => typeError "unary -"
  | .notOp => do
      let b ← truthy a
      .ok (.vBool (!b))
  | .invert =>
      match a with
      | .vInt n => .ok (.vInt (-n - 1))
      | .vBool b => .ok (.vInt (-(if b then (1 : Int) else 0) - 1))
      | _ => typeError "~"

def applyUnaryOp (op : UnaryOperator) (a : Value) : Except ParseErr Value :=
  match a with
  | .vSeries xs => do
      let zs ← xs.mapM (applyScalarUnaryOp op)
      .ok (.vSeries zs)
  | _ => applyScalarUnaryOp op a

/-- Python `str(x)` for the value kinds that occur in the development
(`astype(str)` applies it elementwise).  Rational (float) rendering is not
needed by any verified statement and uses Lean's exact rendering. -/
def pyStr : Value → String
  | .vInt n => toString n
  | .vRat q => toString q
  | .vStr s => s
  | .vBool b => if b then "True" else "False"
  | .vNone => "None"
  | .vNan => "nan"
  | .vInf => "inf"
  | .vList _ => "[...]"
  | .vTuple _ => "(...)"
  | .vDict _ => "{...}"
  | .vSeries _ => "Series"
  | .vBuiltin n => n
  | .vMethod _ m => m

/-- Semantics of the safe builtin functions that the development's expressions
can call.  No verified statement calls a builtin; the implemented cases cover
the simple scalar uses, and anything else reports an evaluation error. -/
def applyBuiltin (name : String) (args : List Value) : Except ParseErr Value :=
  match name, args with
  | "abs", [.vInt n] => .ok (.vInt n.natAbs)
  | "abs", [.vRat q] => .ok (.vRat |q|)
  | "len", [.vStr s] => .ok (.vInt s.length)
  | "len", [.vList xs] => .ok (.vInt xs.length)
  | "len", [.vTuple xs] => .ok (.vInt xs.length)
  | "len", [.vDict ps] => .ok (.vInt ps.length)
  | "str", [v] => .ok (.vStr (pyStr v))
  | "bool", [v] => do
      let b ← truthy v
      .ok (.vBool b)
  | "int", [.vInt n] => .ok (.vInt n)
  | "int", [.vBool b] => .ok (.vInt (if b then 1 else 0))
  | "int", [.vStr s] =>
      match s.toInt? with
      | some n => .ok (.vInt n)
      | Option.none => .error (.evalError ("invalid literal for int(): " ++ s))
  | "list", [.vList xs] => .ok (.vList xs)
  | "list", [.vTuple xs] => .ok (.vList xs)
  | "tuple", [.vList xs] => .ok (.vTuple xs)
  | "tuple", [.vTuple xs] => .ok (.vTuple xs)
  | "min", [.vInt x, .vInt y] => .ok (.vInt (min x y))
  | "max", [.vInt x, .vInt y] => .ok (.vInt (max x y))
  | "sum", [.vList xs] =>
      match xs.mapM toRat? with
      | some qs => .ok (.vRat (qs.sum))
      | Option.none => .error (.evalError "unsupported operand type(s) for +")
  | _, _ => .error (.evalError (name ++ ": call not modelled"))

/-- Semantics of the whitelisted string methods that get called in the
development (none are, so only the simplest are implemented). -/
def applyMethod (recv : Value) (method : String) (args : List Value) :
    Except ParseErr Value :=
  match recv, method, args with
  | .vStr s, "upper", [] => .ok (.vStr s.toUpper)
  | .vStr s, "lower", [] => .ok (.vStr s.toLower)
  | .vStr s, "strip", [] => .ok (.vStr s.trim)
  | .vStr s, "startswith", [.vStr p] => .ok (.vBool (s.startsWith p))
  | .vStr s, "endswith", [.vStr p] => .ok (.vBool (s.endsWith p))
  | _, _, _ => .error (.evalError (method ++ ": method call not modelled"))

/-- Python `and`: returns the first falsy operand, else the last. -/
def pyAnd (a b : Value) : Except ParseErr Value := do
  let t ← truthy a
  .ok (if t then b else a)

mutual

/-- Embedding of `SafeExpressionParser._eval_node`.  Notable source behaviours
kept here: `Name` resolves the context before `SAFE_FUNCTIONS` and otherwise
raises `NameError`; `Compare` evaluates every comparator eagerly and folds
with Python `and`; `BoolOp` maps to `all(...)`/`any(...)` over a generator, so
it short-circuits at the first decisive operand and returns a `bool`;
`Attribute` on a `str` receiver is limited to `STRING_METHODS` (the
pandas/numpy method branches are not exercised by any claim and report the
closing `AttributeError`). -/
def evalNode : PyExpr → Ctx → Except ParseErr Value
  | .const c, _ =>
      match c with
      | .int n => .ok (.vInt n)
      | .str s => .ok (.vStr s)
      | .bool b => .ok (.vBool b)
      | .none => .ok .vNone
  | .name id, ctx =>
      match ctx.lookup id with
      | some v => .ok v
      | Option.none =>
          if SAFE_FUNCTIONS.contains id then .ok (.vBuiltin id)
          else .error (.unknownBinding id)
  | .binOp l op r, ctx => do
      let a ← evalNode l ctx
      let b ← evalNode r ctx
      applyBinOp op a b
  | .unaryOp op e, ctx => do
      let a ← evalNode e ctx
      applyUnaryOp op a
  | .compare l ops comps, ctx => do
      let a ← evalNode l ctx
      evalCompare ops comps a (.vBool true) ctx
  | .boolOp .andOp values, ctx => evalAll values ctx
  | .boolOp .orOp values, ctx => evalAny values ctx
  | .ifExp t b o, ctx => do
      let tv ← evalNode t ctx
      let tb ← truthy tv
      if tb then evalNode b ctx else evalNode o ctx
  | .call f args, ctx => do
      let fv ← evalNode f ctx
      let argv ← evalNodeList args ctx
      match fv with
      | .vBuiltin n => applyBuiltin n argv
      | .vMethod recv m => applyMethod recv m argv
      | _ => .error (.evalError "object is not callable")
  | .attr v a, ctx => do
      let recv ← evalNode v ctx
      match recv with
      | .vStr _ =>
          if STRING_METHODS.contains a then .ok (.vMethod recv a)
          else .error (.evalError ("Access to attribute '" ++ a ++ "' is not allowed"))
      | _ => .error (.evalError ("Access to attribute '" ++ a ++ "' is not allowed"))
  | .subscript v i, ctx => do
      let base ← evalNode v ctx
      let idx ← evalNode i ctx
      match base, idx with
      | .vList xs, .vInt n =>
          let k := if n < 0 then n + xs.length else n
          match xs.get? k.toNat with
          | some x => if 0 ≤ k then .ok x else .error (.evalError "list index out of range")
          | Option.none => .error (.evalError "list index out of range")
      | .vDict ps, k =>
          match ps.find? (fun p => pyEq k p.1) with
          | some p => .ok p.2
          | Option.none => .error (.evalError "KeyError")
      | _, _ => .error (.evalError "subscript not supported")
  | .listLit elts, ctx => do
      let vs ← evalNodeList elts ctx
      .ok (.vList vs)
  | .tupleLit elts, ctx => do
      let vs ← evalNodeList elts ctx
      .ok (.vTuple vs)
  | .dictLit keys values, ctx => do
      let ks ← evalNodeList keys ctx
      let vs ← evalNodeList values ctx
      .ok (.vDict (ks.zip vs))
  | .lambda_ _ _, _ => .error (.evalError "Unsupported node type: Lambda")
  | .joinedStr _, _ => .error (.evalError "Unsupported node type: JoinedStr")
  | .namedExpr _ _, _ => .error (.evalError "Unsupported node type: NamedExpr")

def evalNodeList : List PyExpr → Ctx → Except ParseErr (List Value)
  | [], _ => .ok []
  | e :: es, ctx => do
      let v ← evalNode e ctx
      let vs ← evalNodeList es ctx
      .ok (v :: vs)

def evalCompare : List CmpOperator → List PyExpr → Value → Value → Ctx →
    Except ParseErr Value
  | [], _, _, result, _ => .ok result
  | _, [], _, result, _ => .ok result
  | op :: ops, c :: cs, left, result, ctx => do
      let right ← evalNode c ctx
      let r ← applyCmpOp op left right
      let result' ← pyAnd result r
      evalCompare ops cs right result' ctx

def evalAll : List PyExpr → Ctx → Except ParseErr Value
  | [], _ => .ok (.vBool true)
  | e :: es, ctx => do
      let v ← evalNode e ctx
      let b ← truthy v
      if b then evalAll es ctx else .ok (.vBool false)

def evalAny : List PyExpr → Ctx → Except ParseErr Value
  | [], _ => .ok (.vBool false)
  | e :: es, ctx => do
      let v ← evalNode e ctx
      let b ← truthy v
      if b then .ok (.vBool true) else evalAny es ctx

end

/-- Embedding of `SafeExpressionParser.parse`: validate the tree, then
evaluate it.  The source re-wraps any failure in a `ValueError` whose message
embeds the inner exception's text; the structured error kind is kept. -/
def SafeExpressionParser_parse (e : PyExpr) (ctx : Ctx) : Except ParseErr Value :=
  match validateAst e with
  | .error m => .error (.unsafeConstruct m)
  | .ok () => evalNode e ctx

/-- True when a `parse` outcome is a failure of the static whitelist
validation (the spec's `UnsafeConstruct`). -/
def isUnsafeConstructFailure : Except ParseErr Value → Bool
  | .error (.unsafeConstruct _) => true
  | _ => false

/-! ## Dependency analysis (`DependencyAnalyzer`)

`analyze_expression` parses the expression and walks the tree collecting
`Name` identifiers that are available columns but not builtin names, plus
`dataset.column` composites from `Attribute` nodes.  The `SyntaxError` regex
fallback only runs for unparsable text and cannot arise at the `ast` level of
this embedding.  `analyze_operations` recurses into operation-chain stages;
operation chains are not exercised inside the engine by any verified
statement, so configurations here carry `source`/`transformation` only. -/

/-- The builtin-name exclusion set hard-coded in
`DependencyAnalyzer.analyze_expression`. -/
def ANALYZER_BUILTINS : List String :=
  ["str", "int", "float", "bool", "len", "abs", "max", "min", "round",
   "sum", "any", "all", "np", "pd", "re"]

mutual

/-- All nodes of the tree, as `ast.walk` would visit them (the visit order is
irrelevant: the walk only feeds set insertions). -/
def walkNodes : PyExpr → List PyExpr
  | e@(.const _) => [e]
  | e@(.name _) => [e]
  | e@(.binOp l _ r) => e :: (walkNodes l ++ walkNodes r)
  | e@(.unaryOp _ x) => e :: walkNodes x
  | e@(.compare l _ comps) => e :: (walkNodes l ++ walkNodesList comps)
  | e@(.boolOp _ values) => e :: walkNodesList values
  | e@(.ifExp t b o) => e :: (walkNodes t ++ walkNodes b ++ walkNodes o)
  | e@(.call f args) => e :: (walkNodes f ++ walkNodesList args)
  | e@(.attr v _) => e :: walkNodes v
  | e@(.subscript v i) => e :: (walkNodes v ++ walkNodes i)
  | e@(.listLit elts) => e :: walkNodesList elts
  | e@(.tupleLit elts) => e :: walkNodesList elts
  | e@(.dictLit keys values) => e :: (walkNodesList keys ++ walkNodesList values)
  | e@(.lambda_ _ b) => e :: walkNodes b
  | e@(.joinedStr values) => e :: walkNodesList values
  | e@(.namedExpr _ v) => e :: walkNodes v

def walkNodesList : List PyExpr → List PyExpr
  | [] => []
  | e :: es => walkNodes e ++ walkNodesList es

end

/-- Embedding of `DependencyAnalyzer.analyze_expression`.  The result is the
set `dependencies`, as a deduplicated list (only membership is ever used). -/
def analyzeExpression (e : PyExpr) (availableColumns : List String) : List String :=
  let names := (walkNodes e).filterMap (fun node =>
    match node with
    | .name id =>
        if availableColumns.contains id ∧ ¬ ANALYZER_BUILTINS.contains id then some id
        else Option.none
    | _ => Option.none)
  let attrNames := (walkNodes e).filterMap (fun node =>
    match node with
    | .attr (.name v) a =>
        let attrName := v ++ "." ++ a
        if availableColumns.contains attrName then some attrName else Option.none
    | _ => Option.none)
  (names ++ attrNames).dedup

/-! ## Column configurations

The fields of one entry of `config["output"]["columns"]` that drive
dependency resolution and column processing.  `validation` rules and
`operations` chains are optional fields no verified statement exercises and
are left out of the record (the `operations` branch of `_process_column` and
`analyze_operations` are correspondingly not modelled; `FilterOperation`,
which claims do exercise, is modelled standalone below). -/

inductive TargetType where
  | tString | tInt | tFloat | tBool
deriving Repr, DecidableEq

structure ColumnConfig where
  /-- The `source` key; `config.get("source", column_name)` defaults it to the
  column's own name. -/
  source : Option String := Option.none
  /-- The `type` key; `config.get("type", "string")` defaults it to string.
  The `datetime` target type is not exercised by any verified statement and is
  not modelled. -/
  targetType : Option TargetType := Option.none
  /-- The `transformation` key, already parsed to its `ast` tree. -/
  transformation : Option PyExpr := Option.none
  /-- The `interim` key; `config.get("interim", False)`. -/
  interim : Bool := false
  /-- The `default` key. -/
  defaultValue : Option Value := Option.none
deriving Repr

/-- Output-column specifications in declaration order (a Python `dict`
preserves insertion order; its keys are unique). -/
abbrev ColumnSpecs := List (String × ColumnConfig)

def columnKeys (columns : ColumnSpecs) : List String := columns.map Prod.fst

/-! ## Dependency graph construction (`DependencyResolver.build_dependency_graph`) -/

/-- The raw dependency set of one column before filtering: the `source` (when
it differs from the column name and is an available column) plus the
transformation's analyzed references. -/
def rawColumnDeps (name : String) (cfg : ColumnConfig) (allColumns : List String) :
    List String :=
  let src := cfg.source.getD name
  let sourceDeps := if src ≠ name ∧ allColumns.contains src then [src] else []
  let transDeps :=
    match cfg.transformation with
    | some e => analyzeExpression e allColumns
    | Option.none => []
  sourceDeps ++ transDeps

/-- Embedding of `build_dependency_graph`: for each output column, its
dependency set after dropping self-dependencies and names that are neither
input columns nor output columns.  The graph is an association list in
declaration order (`self.dependency_graph` is filled by iterating the config
dict).  Each dependency list is deduplicated (it is a Python set; only its
membership is ever consumed). -/
def buildDependencyGraph (columns : ColumnSpecs) (inputColumns : List String) :
    List (String × List String) :=
  let keys := columnKeys columns
  let allColumns := inputColumns ++ keys
  columns.map (fun p =>
    (p.1, ((rawColumnDeps p.1 p.2 allColumns).dedup).filter
        (fun dep => dep ≠ p.1 ∧ (inputColumns.contains dep ∨ keys.contains dep))))

/-- Dependency lookup into the built graph (`self.dependency_graph[col]`). -/
def depsOf (graph : List (String × List String)) (k : String) : List String :=
  (graph.lookup k).getD []

/-! ## Topological sort (`DependencyResolver.resolve_execution_order`)

Kahn's algorithm: in-degrees count only output-to-output edges, the queue is a
FIFO `deque` seeded with the zero-in-degree columns in declaration order (the
`in_degree` dict preserves the config dict's order), and processing a column
decrements each dependent's in-degree, appending it when it reaches zero.

`self.reverse_graph[current]` is a Python *set* of dependents, whose iteration
order is implementation-defined; it is modelled as the dependents in
declaration order.  No statement proved below depends on this choice: the
soundness and cycle-remainder theorems hold for any iteration order, and every
concrete execution below has dependent sets of size at most one.

The loop is embedded with an explicit fuel parameter for structural
termination; `kahnFuel_sufficient` below proves that the fuel
`resolve_execution_order` passes is enough, i.e. the fuel-exhaustion branch is
unreachable and the function computes exactly the `while queue:` loop. -/

/-- The inner `for dependent in self.reverse_graph[current]:` loop body:
decrement each dependent that is an output column, enqueueing it when its
in-degree reaches zero. -/
def processDependents (keys : List String) :
    List String → (String → Int) → List String → (String → Int) × List String
  | [], indeg, queue => (indeg, queue)
  | d :: ds, indeg, queue =>
      if keys.contains d then
        processDependents keys ds (fun k => if k = d then indeg d - 1 else indeg k)
          (if indeg d - 1 = 0 then queue ++ [d] else queue)
      else processDependents keys ds indeg queue

/-- Fuel bound: the queue length plus the total remaining (nonnegative)
in-degree, which strictly decreases at every iteration. -/
def sumIndeg (keys : List String) (indeg : String → Int) : Nat :=
  (keys.map (fun k => (indeg k).toNat)).sum

def kahnLoop (keys : List String) (rev : String → List String) :
    Nat → List String → (String → Int) → List String → List String
  | _, [], _, order => order
  | 0, _ :: _, _, order => order
  | fuel + 1, current :: rest, indeg, order =>
      let s := processDependents keys (rev current) indeg rest
      kahnLoop keys rev fuel s.2 s.1 (order ++ [current])

inductive ResolveError where
  | cycleDetected (remaining : List String)
deriving Repr, DecidableEq

/-- The reverse graph (`self.reverse_graph`): the output columns that depend
on `c`, in declaration order (see the note above on set iteration order). -/
def revAdj (graph : List (String × List String)) (keys : List String) (c : String) :
    List String :=
  keys.filter (fun k => (depsOf graph k).contains c)

/-- Initial in-degree: `len([dep for dep in deps if dep in column_configs])`. -/
def initialIndeg (graph : List (String × List String)) (keys : List String)
    (k : String) : Int :=
  (((depsOf graph k).filter (fun d => keys.contains d)).length : Int)

/-- The columns the Kahn loop places, in placement order (the value of
`execution_order` when the `while queue:` loop finishes). -/
def kahnPlacedOrder (columns : ColumnSpecs) (inputColumns : List String) :
    List String :=
  let keys := columnKeys columns
  let graph := buildDependencyGraph columns inputColumns
  let indeg : String → Int := initialIndeg graph keys
  let queue := keys.filter (fun k => indeg k == 0)
  kahnLoop keys (revAdj graph keys) (queue.length + sumIndeg keys indeg) queue indeg []

/-- Embedding of `resolve_execution_order`: build the graph, run Kahn's
algorithm, and if fewer columns were placed than exist, raise the cycle error
naming the unplaced remainder (`set(column_configs) - set(execution_order)`,
here in declaration order). -/
def resolveExecutionOrder (columns : ColumnSpecs) (inputColumns : List String) :
    Except ResolveError (List String) :=
  let order := kahnPlacedOrder columns inputColumns
  if order.length = columns.length then .ok order
  else .error (.cycleDetected
    ((columnKeys columns).filter (fun k => ¬ order.contains k)))

/-! ## Execution planning (`ColumnExecutionEngine.plan_execution`) -/

/-- Embedding of `DependencyResolver.validate_dependencies`.  Note that
`analyze_expression` only ever returns names that are *in* `all_columns`, so
its unknown-reference check can never fire (it is kept verbatim); only the
source-column check can produce an error. -/
def validateDependencies (columns : ColumnSpecs) (inputColumns : List String) :
    List String :=
  let allColumns := inputColumns ++ columnKeys columns
  columns.flatMap (fun p =>
    let src := p.2.source.getD p.1
    let srcErrs :=
      if src ≠ p.1 ∧ ¬ allColumns.contains src then
        ["Column '" ++ p.1 ++ "': source '" ++ src ++ "' not found"]
      else []
    let transErrs :=
      match p.2.transformation with
      | some e =>
          ((analyzeExpression e allColumns).filter
              (fun d => ¬ allColumns.contains d)).map
            (fun d => "Column '" ++ p.1 ++ "': transformation references unknown column '" ++ d ++ "'")
      | Option.none => []
    srcErrs ++ transErrs)

/-- The execution plan: the resolved order plus the interim/final partition.
`interim_columns`/`final_columns` are sets in the source; they are declaration
order lists here and only their membership is consumed. -/
structure ExecutionPlan where
  executionOrder : List String
  interimColumns : List String
  finalColumns : List String
deriving Repr, DecidableEq

inductive PlanError where
  | validationFailed (errors : List String)
  | cycleDetected (remaining : List String)
deriving Repr, DecidableEq

/-- Embedding of `plan_execution`: validate, resolve, classify. -/
def planExecution (columns : ColumnSpecs) (inputColumns : List String) :
    Except PlanError ExecutionPlan :=
  let vErrs := validateDependencies columns inputColumns
  if vErrs ≠ [] then .error (.validationFailed vErrs)
  else
    match resolveExecutionOrder columns inputColumns with
    | .error (.cycleDetected rem) => .error (.cycleDetected rem)
    | .ok order =>
        .ok { executionOrder := order
              interimColumns := (columns.filter (fun p => p.2.interim)).map Prod.fst
              finalColumns := (columns.filter (fun p => !p.2.interim)).map Prod.fst }

/-! ## Tables

A pandas DataFrame, as the core consumes it: named columns in order, each a
list of cell values (all the same length in every frame the development
builds). -/

structure DataFrame where
  cols : List (String × List Value)
deriving Repr

def DataFrame.columns (df : DataFrame) : List String := df.cols.map Prod.fst

def DataFrame.getCol (df : DataFrame) (n : String) : Option (List Value) :=
  df.cols.lookup n

def DataFrame.hasCol (df : DataFrame) (n : String) : Bool :=
  df.columns.contains n

def DataFrame.nrows (df : DataFrame) : Nat :=
  match df.cols with
  | [] => 0
  | c :: _ => c.2.length

/-- Column assignment `df[name] = series`: replace in place when the column
exists, else append it (pandas keeps the position of an existing column and
appends a new one at the end). -/
def DataFrame.setCol (df : DataFrame) (n : String) (xs : List Value) : DataFrame :=
  if df.hasCol n then
    ⟨df.cols.map (fun p => if p.1 = n then (n, xs) else p)⟩
  else ⟨df.cols ++ [(n, xs)]⟩

/-- Column projection `df[keep]` for a key list whose members are present. -/
def DataFrame.select (df : DataFrame) (keep : List String) : DataFrame :=
  ⟨keep.filterMap (fun k => (df.getCol k).map (fun xs => (k, xs)))⟩

/-! ## The high-level expression wrapper (`ExpressionParser`) -/

/-- The bindings `ExpressionParser` always merges into the context *after* the
row/column bindings (`context.update({...})`, so they win on a name clash,
which a first-match association list realises by putting them first). -/
def stdBindings : Ctx :=
  [("np", .vBuiltin "np"), ("pd", .vBuiltin "pd"), ("nan", .vNan), ("inf", .vInf)]

/-- Embedding of `ExpressionParser.evaluate`: one row of scalars plus the
standard bindings. -/
def ExpressionParser_evaluate (e : PyExpr) (row : List (String × Value)) :
    Except ParseErr Value :=
  SafeExpressionParser_parse e (stdBindings ++ row)

/-- Character-level split (`name.split("_")`), written over the character
list so that it evaluates by reduction. -/
def splitOnChar (c : Char) (s : String) : List String :=
  (s.toList.foldr
    (fun ch acc =>
      if ch = c then [] :: acc
      else
        match acc with
        | g :: gs => (ch :: g) :: gs
        | [] => [[ch]])
    [[]]).map (fun l => String.mk l)

/-- The context assignments of `evaluate_vectorized`: each column as a Series,
and for a column name with exactly one underscore the two `dataset.column`
aliases the source also registers.  Later Python dict assignments override
earlier ones, hence the reversal under a first-match lookup. -/
def vectorAssignments (df : DataFrame) : Ctx :=
  df.cols.flatMap (fun p =>
    let base := [(p.1, Value.vSeries p.2)]
    match splitOnChar '_' p.1 with
    | [p0, p1] =>
        base ++ [(p1 ++ "." ++ p0, Value.vSeries p.2), (p0 ++ "." ++ p1, Value.vSeries p.2)]
    | _ => base)

def vectorCtx (df : DataFrame) : Ctx :=
  stdBindings ++ (vectorAssignments df).reverse

/-- Elementwise traversal with fail-fast error propagation: the semantics of
both `Series.map` (first exception propagates) and `df.apply` over rows. -/
def mapExcept (f : α → Except ε β) : List α → Except ε (List β)
  | [] => .ok []
  | x :: xs => do
      let y ← f x
      let ys ← mapExcept f xs
      .ok (y :: ys)

def isUnknownBindingErr : ParseErr → Bool
  | .unknownBinding _ => true
  | _ => false

/-- Row extraction for the `df.apply(..., axis=1)` fallback. -/
def rowOf (df : DataFrame) (i : Nat) : List (String × Value) :=
  df.cols.map (fun p => (p.1, (p.2.get? i).getD Value.vNone))

def evaluateRowByRow (e : PyExpr) (df : DataFrame) : Except ParseErr (List Value) :=
  mapExcept (fun i => ExpressionParser_evaluate e (rowOf df i)) (List.range df.nrows)

/-- The fast path `if expression in df.columns: return df[expression]`: the
expression text equals a column name exactly when the tree is that bare
identifier.  (The subsequent dotted-name suffix probing for joined frames is
not exercised by any verified statement and is not modelled.) -/
def directColumnRef (e : PyExpr) (df : DataFrame) : Option (List Value) :=
  match e with
  | .name id => df.getCol id
  | _ => Option.none

def parseErrMsg : ParseErr → String
  | .unsafeConstruct m => m
  | .unknownBinding n => "Name '" ++ n ++ "' is not defined"
  | .evalError m => m

/-- Embedding of `ExpressionParser.evaluate_vectorized`: direct column
reference, else vectorized evaluation over Series bindings (broadcasting a
scalar result to the frame's length); a name-resolution failure becomes the
"Column reference not found" error (the source tests `"not defined" in
str(e)`), and any other failure falls back to row-by-row evaluation, which
runs the same safety validation again. -/
def evaluateVectorized (e : PyExpr) (df : DataFrame) : Except String (List Value) :=
  match directColumnRef e df with
  | some col => .ok col
  | Option.none =>
      match SafeExpressionParser_parse e (vectorCtx df) with
      | .ok (.vSeries xs) => .ok xs
      | .ok v => .ok (List.replicate df.nrows v)
      | .error err =>
          if isUnknownBindingErr err then
            .error "Column reference not found"
          else
            match evaluateRowByRow e df with
            | .ok xs => .ok xs
            | .error e2 => .error ("Error parsing expression: " ++ parseErrMsg e2)

/-! ## Type conversion (`TransformationEngine._convert_type`) -/

/-- Elementwise semantics of the four modelled target types:
`astype(str)` renders each value;
`pd.to_numeric(errors="coerce").astype("Int64")` keeps integers, maps
booleans to 0/1, parses numeric strings and coerces everything else to null;
`pd.to_numeric(errors="coerce")` likewise but keeping non-integral numbers;
`astype(bool)` is Python truthiness (note `bool(nan)` is `True`). -/
def convertScalar (t : TargetType) (v : Value) : Value :=
  match t with
  | .tString => .vStr (pyStr v)
  | .tInt =>
      match v with
      | .vInt n => .vInt n
      | .vBool b => .vInt (if b then 1 else 0)
      | .vStr s =>
          match s.toInt? with
          | some n => .vInt n
          | Option.none => .vNone
      | .vRat q => if q.den = 1 then .vInt q.num else .vNone
      | _ => .vNone
  | .tFloat =>
      match v with
      | .vInt n => .vInt n
      | .vBool b => .vInt (if b then 1 else 0)
      | .vRat q => .vRat q
      | .vStr s =>
          match s.toInt? with
          | some n => .vInt n
          | Option.none => .vNone
      | _ => .vNone
  | .tBool =>
      match v with
      | .vInt n => .vBool (n ≠ 0)
      | .vRat q => .vBool (q ≠ 0)
      | .vStr s => .vBool (s ≠ "")
      | .vBool b => .vBool b
      | .vNone => .vBool true
      | .vNan => .vBool true
      | _ => .vBool true

def convertType (t : TargetType) (xs : List Value) : List Value :=
  xs.map (convertScalar t)

/-! ## Column processing (`TransformationEngine._process_column`)

The `operations` branch is not modelled (no verified statement drives an
operation chain through the engine; the `FilterOperation` stage, which claims
do exercise, is modelled standalone below).  The `validation` step only calls
`_handle_error` and returns the series unchanged; no verified configuration
carries validation rules. -/

def processColumn (df : DataFrame) (name : String) (cfg : ColumnConfig) :
    Except String (List Value) := do
  let series ←
    match cfg.transformation with
    | some e => evaluateVectorized e df
    | Option.none =>
        let src := cfg.source.getD name
        match df.getCol src with
        | some col => .ok col
        | Option.none =>
            -- the source first retries the name as an expression; for a bare
            -- identifier that second attempt fails the same way and the
            -- engine raises the not-found error
            .error ("Source column '" ++ src ++ "' not found")
  let series := convertType (cfg.targetType.getD .tString) series
  let series :=
    match cfg.defaultValue with
    | some d =>
        series.map (fun v =>
          match v with
          | .vNone => d
          | .vNan => d
          | _ => v)
    | Option.none => series
  .ok series

/-! ## The engine's error budget (`TransformationEngine._handle_error`) -/

/-- The `global_settings` the engine reads: `max_errors` defaults to 100 and
`ignore_errors` to `False`. -/
structure GlobalSettings where
  maxErrors : Nat := 100
  ignoreErrors : Bool := false
deriving Repr, DecidableEq

structure EngineConfig where
  columns : ColumnSpecs
  onlyOutputColumns : Bool := false
  settings : GlobalSettings := {}
deriving Repr

/-- Embedding of `_handle_error`: append the record, raise the budget
`ValidationError` once the recorded count reaches `max_errors`, and otherwise
raise the error itself unless `ignore_errors` is set. -/
def handleError (maxErrors : Nat) (ignoreErrors : Bool) (errors : List String)
    (msg : String) : Except String (List String) :=
  let errors' := errors ++ [msg]
  if maxErrors ≤ errors'.length then
    .error ("Maximum number of errors (" ++ toString maxErrors ++ ") exceeded")
  else if !ignoreErrors then .error msg
  else .ok errors'

/-! ## The whole-frame transform (`TransformationEngine.transform`) -/

def planErrMsg : PlanError → String
  | .validationFailed errs => "Dependency validation failed: " ++ String.intercalate "; " errs
  | .cycleDetected rem => "Circular dependency detected in columns: " ++ String.intercalate ", " rem

/-- The column loop of `transform`: process each planned column, assigning on
success and routing failures through `_handle_error` (whose own raise aborts
the loop). -/
def transformColumns (cfg : EngineConfig) :
    List String → DataFrame → List String → Except String (DataFrame × List String)
  | [], df, errors => .ok (df, errors)
  | name :: rest, df, errors =>
      match cfg.columns.lookup name with
      | Option.none => .error ("KeyError: '" ++ name ++ "'")
      | some c =>
          match processColumn df name c with
          | .ok series => transformColumns cfg rest (df.setCol name series) errors
          | .error e =>
              match handleError cfg.settings.maxErrors cfg.settings.ignoreErrors errors
                  ("Error processing column '" ++ name ++ "': " ++ e) with
              | .error m => .error m
              | .ok errors' => transformColumns cfg rest df errors'

/-- First-occurrence deduplication, exactly the source's seen-set loop. -/
def dedupFirstAux : List String → List String → List String
  | [], _ => []
  | x :: xs, seen =>
      if seen.contains x then dedupFirstAux xs seen
      else x :: dedupFirstAux xs (x :: seen)

def dedupFirst (l : List String) : List String := dedupFirstAux l []

/-- Final column selection of `transform`: keep the input columns plus the
final (non-interim) output columns present in the built frame, deduplicated
first-occurrence-first; with `only_output_columns` set, keep only the latter.
`list(input_columns)` linearizes a Python set in unspecified order; it is
modelled as the frame's column order, and only single-input-column frames
appear in concrete statements below. -/
def finalizeColumns (cfg : EngineConfig) (inputColumns : List String)
    (finalColumns : List String) (df : DataFrame) : DataFrame :=
  let finalsPresent := finalColumns.filter (fun c => df.hasCol c)
  let keep :=
    if cfg.onlyOutputColumns then finalsPresent
    else dedupFirst (inputColumns ++ finalsPresent)
  df.select keep

/-- Embedding of `TransformationEngine.transform`.  On a planning failure the
source calls `_handle_error` (fatal unless `ignore_errors`) and, when that
returns, *continues with a substitute plan*: the declaration order, with every
output column treated as final.  The verified configurations define no output
filters and no sort, so the two trailing guarded blocks are no-ops. -/
def TransformationEngine_transform (cfg : EngineConfig) (df : DataFrame) :
    Except String DataFrame :=
  let inputColumns := df.columns
  match planExecution cfg.columns inputColumns with
  | .ok plan =>
      match transformColumns cfg plan.executionOrder df [] with
      | .error m => .error m
      | .ok (df', _) => .ok (finalizeColumns cfg inputColumns plan.finalColumns df')
  | .error pe =>
      match handleError cfg.settings.maxErrors cfg.settings.ignoreErrors []
          ("Execution planning failed: " ++ planErrMsg pe) with
      | .error m => .error m
      | .ok errs =>
          let order := columnKeys cfg.columns
          match transformColumns cfg order df errs with
          | .error m => .error m
          | .ok (df', _) => .ok (finalizeColumns cfg inputColumns order df')

/-! ## The fallback processor (`FallbackProcessor`) -/

inductive ProcessingMode where
  | Strict | Partial | Fallback
deriving Repr, DecidableEq

/-- Result record of a processing run (`ProcessingResult`).  The error log and
wall-clock timing are logging artifacts no verified statement reads and are
not modelled. -/
structure ProcessingResult where
  success : Bool
  data : DataFrame
  processingMode : ProcessingMode
  successfulColumns : List String
  failedColumns : List String
  skippedColumns : List String
  fallbackUsed : Bool
deriving Repr

/-- A configured substitute transformation (`fallback_transformations`
entry). -/
inductive FallbackTransformation where
  | defaultValue (value : Value)
  | copyColumn (source : String)
  | basicCalculation (operation : String) (source : String)
deriving Repr

/-- The processor's `global_settings`: `failure_threshold` defaults to 0.5 and
`enable_fallback` to `True`. -/
structure FallbackSettings where
  failureThreshold : ℚ := mkRat 1 2
  enableFallback : Bool := true
  fallbackTransformations : List (String × FallbackTransformation) := []
deriving Repr

/-- Forward fill over a column (`fillna(method="ffill")`). -/
def forwardFill (last? : Option Value) : List Value → List Value
  | [] => []
  | v :: vs =>
      match v with
      | .vNone =>
          match last? with
          | some l => l :: forwardFill (some l) vs
          | Option.none => .vNone :: forwardFill Option.none vs
      | .vNan =>
          match last? with
          | some l => l :: forwardFill (some l) vs
          | Option.none => .vNan :: forwardFill Option.none vs
      | _ => v :: forwardFill (some v) vs

/-- Embedding of `_apply_column_fallback`: `some df'` models returning `True`
with the frame mutated, `Option.none` models returning `False`.  The
aggregates skip nulls the way pandas does. -/
def applyColumnFallback (fb : FallbackSettings) (df : DataFrame) (name : String) :
    Option DataFrame :=
  match fb.fallbackTransformations.lookup name with
  | Option.none => Option.none
  | some (.defaultValue v) => some (df.setCol name (List.replicate df.nrows v))
  | some (.copyColumn src) => (df.getCol src).map (fun col => df.setCol name col)
  | some (.basicCalculation op src) =>
      match df.getCol src with
      | Option.none => Option.none
      | some col =>
          let nums := col.filterMap toRat?
          if op = "mean" then
            let m : Value :=
              if nums.length = 0 then .vNan
              else .vRat (ratDiv nums.sum (nums.length : ℚ))
            some (df.setCol name (List.replicate df.nrows m))
          else if op = "median" then
            let sorted := nums.insertionSort (· ≤ ·)
            let n := sorted.length
            let m : Value :=
              if n = 0 then .vNan
              else if n % 2 = 1 then
                .vRat ((sorted.get? (n / 2)).getD 0)
              else
                .vRat (ratDiv (((sorted.get? (n / 2 - 1)).getD 0) + ((sorted.get? (n / 2)).getD 0)) 2)
            some (df.setCol name (List.replicate df.nrows m))
          else if op = "forward_fill" then
            some (df.setCol name (forwardFill Option.none col))
          else Option.none

/-- State threaded through the partial-mode column loop. -/
structure PartialState where
  df : DataFrame
  successful : List String
  failed : List String
deriving Repr

/-- The execution order `_process_partial_mode` uses: the planned order, or —
when planning raises for *any* reason — the declaration order of the output
columns (`except Exception: execution_order = list(output_columns.keys())`). -/
def partialExecutionOrder (cfg : EngineConfig) (df : DataFrame) : List String :=
  match planExecution cfg.columns df.columns with
  | .ok plan => plan.executionOrder
  | .error _ => columnKeys cfg.columns

/-- The column loop of `_process_partial_mode`: each column is attempted
against the frame built so far; a success assigns it, a failure records it and
tries the configured substitute transformation.  (Error categorization and
index extraction feed only the log.)  Execution orders are always subsets of
the declared keys, so the lookup cannot miss. -/
def processPartialColumns (cfg : EngineConfig) (fb : FallbackSettings) :
    List String → PartialState → PartialState
  | [], st => st
  | name :: rest, st =>
      match cfg.columns.lookup name with
      | Option.none => processPartialColumns cfg fb rest st
      | some c =>
          match processColumn st.df name c with
          | .ok series =>
              processPartialColumns cfg fb rest
                { st with
                    df := st.df.setCol name series
                    successful := st.successful ++ [name] }
          | .error _ =>
              let st' := { st with failed := st.failed ++ [name] }
              let st'' :=
                match applyColumnFallback fb st'.df name with
                | some df' => { st' with df := df' }
                | Option.none => st'
              processPartialColumns cfg fb rest st''

/-- Embedding of `_process_partial_mode`: run every column in order, then
escalate exactly when `failure_rate > failure_threshold` *and* whole-run
fallback is enabled — returning the partially-built frame with
`success=False, fallback_used=True` and skipping post-processing.  Otherwise
post-processing runs (a no-op for the verified configurations, which define no
output filters and no sort) and `success = len(successful_columns) > 0`. -/
def processPartialMode (cfg : EngineConfig) (fb : FallbackSettings)
    (df : DataFrame) : ProcessingResult :=
  let order := partialExecutionOrder cfg df
  let st := processPartialColumns cfg fb order ⟨df, [], []⟩
  let failureRate : ℚ := mkRat st.failed.length (columnKeys cfg.columns).length
  if failureRate > fb.failureThreshold ∧ fb.enableFallback then
    { success := false
      data := st.df
      processingMode := .Partial
      successfulColumns := st.successful
      failedColumns := st.failed
      skippedColumns := []
      fallbackUsed := true }
  else
    { success := decide (0 < st.successful.length)
      data := st.df
      processingMode := .Partial
      successfulColumns := st.successful
      failedColumns := st.failed
      skippedColumns := []
      fallbackUsed := false }

/-- Embedding of `_process_strict_mode` together with the surrounding
`process_with_fallback` handler: the engine's transform runs whole; its raise
is logged and surfaces as a failure result that carries the *input* frame. -/
def processStrictMode (cfg : EngineConfig) (df : DataFrame) : ProcessingResult :=
  match TransformationEngine_transform cfg df with
  | .ok out =>
      { success := true
        data := out
        processingMode := .Strict
        successfulColumns := columnKeys cfg.columns
        failedColumns := []
        skippedColumns := []
        fallbackUsed := false }
  | .error _ =>
      { success := false
        data := df
        processingMode := .Strict
        successfulColumns := []
        failedColumns := []
        skippedColumns := []
        fallbackUsed := false }

/-- Embedding of `_apply_basic_transformations`: copy each output column's
source from the *input* frame when present and apply only the numeric
coercions (the string target does nothing here; datetime is not modelled). -/
def applyBasicTransformations (cfg : EngineConfig) (df : DataFrame) : DataFrame :=
  cfg.columns.foldl
    (fun acc p =>
      let src := p.2.source.getD p.1
      match df.getCol src with
      | Option.none => acc
      | some col =>
          let col' :=
            match p.2.targetType with
            | some .tFloat => convertType .tFloat col
            | some .tInt => convertType .tInt col
            | _ => col
          acc.setCol p.1 col')
    df

/-- Embedding of `_process_fallback_mode` without an external fallback query
function (no verified statement supplies one): the degraded
basic-transformation path, which never fails. -/
def processFallbackMode (cfg : EngineConfig) (df : DataFrame) : ProcessingResult :=
  { success := true
    data := applyBasicTransformations cfg df
    processingMode := .Fallback
    successfulColumns := []
    failedColumns := []
    skippedColumns := columnKeys cfg.columns
    fallbackUsed := true }

/-- The mode dispatch of `process_with_fallback`. -/
def processWithFallback (mode : ProcessingMode) (cfg : EngineConfig)
    (fb : FallbackSettings) (df : DataFrame) : ProcessingResult :=
  match mode with
  | .Strict => processStrictMode cfg df
  | .Partial => processPartialMode cfg fb df
  | .Fallback => processFallbackMode cfg df

/-! ## The Filter stage (`FilterOperation.apply`)

The compiled condition (an arbitrary pure callable built by
`_compile_condition`) is a parameter; `apply` maps it over the series and
replaces the elements whose mask entry is not truthy by the fill value —
`series.where(mask, fill_value)` — never dropping a row. -/

/-- Truthiness of one mask entry as `Series.where` consumes it (a null mask
entry masks the element out). -/
def maskTruthy : Value → Bool
  | .vBool b => b
  | .vInt n => n != 0
  | .vRat q => q != 0
  | .vStr s => s != ""
  | .vNone => false
  | .vNan => false
  | _ => true

def FilterOperation_apply (cond : Value → Except String Value) (fillValue : Value)
    (series : List Value) : Except String (List Value) :=
  match mapExcept cond series with
  | .error e => .error ("Filter operation failed: " ++ e)
  | .ok mask =>
      .ok ((series.zip mask).map (fun p => if maskTruthy p.2 then p.1 else fillValue))

/-! ## Concrete fixtures used by several statements below -/

/-- The tree of `__import__('os')`. -/
def importOsExpr : PyExpr := .call (.name "__import__") [.const (.str "os")]

/-- The tree of `exec('x')`. -/
def execExpr : PyExpr := .call (.name "exec") [.const (.str "x")]

/-- The tree of `a + b`. -/
def aPlusBExpr : PyExpr := .binOp (.name "a") .add (.name "b")

/-- The tree of `1/0`. -/
def oneDivZeroExpr : PyExpr := .binOp (.const (.int 1)) .div (.const (.int 0))

/-- The input table `{a: [1, 2, 3]}`. -/
def dfA123 : DataFrame := ⟨[("a", [.vInt 1, .vInt 2, .vInt 3])]⟩

/-- The input table `{a: [1, 2]}`. -/
def dfA12 : DataFrame := ⟨[("a", [.vInt 1, .vInt 2])]⟩

/-- Claim C4's configuration: `x` copies input column `a`, `y` computes the
always-failing transformation `1/0`. -/
def c4Config : EngineConfig :=
  { columns :=
      [("x", { source := some "a" }),
       ("y", { transformation := some oneDivZeroExpr })] }

/-- A column that copies input column `a` as an integer column. -/
def copyACol : ColumnConfig := { source := some "a", targetType := some .tInt }

/-- A column whose transformation `1/0` always fails. -/
def failingCol : ColumnConfig := { transformation := some oneDivZeroExpr }

/-- Claim C5's first configuration: 2 of 4 columns fail. -/
def c5ConfigHalf : EngineConfig :=
  { columns := [("c1", copyACol), ("c2", copyACol), ("c3", failingCol), ("c4", failingCol)] }

/-- Claim C5's second configuration: 3 of 4 columns fail. -/
def c5ConfigMost : EngineConfig :=
  { columns := [("c1", copyACol), ("c2", failingCol), ("c3", failingCol), ("c4", failingCol)] }

/-- Claim C9's configuration: interim column `t = a + 1` feeding final column
`u = t * 2`, both integer-typed. -/
def c9Config : EngineConfig :=
  { columns :=
      [("t", { transformation := some (.binOp (.name "a") .add (.const (.int 1)))
               targetType := some .tInt
               interim := true }),
       ("u", { transformation := some (.binOp (.name "t") .mult (.const (.int 2)))
               targetType := some .tInt })] }

/-- Claim C9's shadowing fixture: the single output column `a` is flagged
interim and shadows the input column `a`. -/
def c9ShadowConfig : EngineConfig :=
  { columns :=
      [("a", { transformation := some (.binOp (.name "a") .mult (.const (.int 2)))
               targetType := some .tInt
               interim := true })] }

/-- Claim C9's plan-failure fixture: `t` is interim and computable, while
`bad` names an unknown source column, which makes dependency validation (and
hence plan construction) fail; `ignore_errors` is set so the engine proceeds
under the substitute plan. -/
def c9PlanFailConfig : EngineConfig :=
  { columns :=
      [("t", { transformation := some (.binOp (.name "a") .add (.const (.int 1)))
               targetType := some .tInt
               interim := true }),
       ("bad", { source := some "zz" })]
    settings := { ignoreErrors := true } }

/-- The cyclic two-column configuration `A: "B + 1"`, `B: "A + 1"`. -/
def cyclicConfig : ColumnSpecs :=
  [("A", { transformation := some (.binOp (.name "B") .add (.const (.int 1))) }),
   ("B", { transformation := some (.binOp (.name "A") .add (.const (.int 1))) })]

def cyclicEngineConfig : EngineConfig := { columns := cyclicConfig }

/-- Claim C8's configuration: `x` (declared first) depends on `w`; `w` and `v`
have no dependencies. -/
def c8Config : ColumnSpecs :=
  [("x", { transformation := some (.binOp (.name "w") .add (.const (.int 1))) }),
   ("w", {}),
   ("v", {})]

def exceptOk : Except ε α → Bool
  | .ok _ => true
  | .error _ => false

/-!
# Theorems

Each claim of the specification gets one theorem below (with a witness when
the theorem carries hypotheses, and a counterexample where the claim fails on
the code). Helper lemmas come first.
-/

theorem exceptOk_bind (x : Except String Unit) (f : Unit → Except String Unit) :
    exceptOk (x >>= f) = (exceptOk x && exceptOk (f ())) := by
  cases x <;> rfl

mutual

/-- Static validation succeeds exactly when no node of the tree is outside the
whitelist: the recursive checks of `_validate_ast` cover every node `ast.walk`
reaches. -/
theorem validateAst_exceptOk :
    ∀ e : PyExpr, exceptOk (validateAst e) = !hasUnsafeNode e
  | .const _ => rfl
  | .name _ => rfl
  | .binOp l op r => by
      simp only [validateAst, hasUnsafeNode]
      by_cases h : safeBinOperator op = true
      · simp [h, exceptOk_bind, validateAst_exceptOk l, validateAst_exceptOk r]
      · simp [h, exceptOk]
  | .unaryOp op e => by
      simp only [validateAst, hasUnsafeNode]
      by_cases h : safeUnaryOperator op = true
      · simp [h, validateAst_exceptOk e]
      · simp [h, exceptOk]
  | .compare l ops comps => by
      simp only [validateAst, hasUnsafeNode]
      by_cases h : ops.all safeCmpOperator = true
      · simp [h, exceptOk_bind, validateAst_exceptOk l, validateAstList_exceptOk comps]
      · simp [h, exceptOk]
  | .boolOp op values => by
      simp [validateAst, hasUnsafeNode, validateAstList_exceptOk values]
  | .ifExp t b o => by
      simp [validateAst, hasUnsafeNode, exceptOk_bind, Bool.or_assoc,
        validateAst_exceptOk t, validateAst_exceptOk b, validateAst_exceptOk o]
  | .call f args => by
      simp [validateAst, hasUnsafeNode, exceptOk_bind,
        validateAst_exceptOk f, validateAstList_exceptOk args]
  | .attr v _ => by
      simp [validateAst, hasUnsafeNode, validateAst_exceptOk v]
  | .subscript v i => by
      simp [validateAst, hasUnsafeNode, exceptOk_bind,
        validateAst_exceptOk v, validateAst_exceptOk i]
  | .listLit elts => by
      simp [validateAst, hasUnsafeNode, validateAstList_exceptOk elts]
  | .tupleLit elts => by
      simp [validateAst, hasUnsafeNode, validateAstList_exceptOk elts]
  | .dictLit keys values => by
      simp [validateAst, hasUnsafeNode, exceptOk_bind,
        validateAstList_exceptOk keys, validateAstList_exceptOk values]
  | .lambda_ _ _ => rfl
  | .joinedStr _ => rfl
  | .namedExpr _ _ => rfl

theorem validateAstList_exceptOk :
    ∀ es : List PyExpr, exceptOk (validateAstList es) = !hasUnsafeNodeList es
  | [] => rfl
  | e :: es => by
      simp [validateAstList, hasUnsafeNodeList, exceptOk_bind,
        validateAst_exceptOk e, validateAstList_exceptOk es]

end

/-- Claim C1, counterexample.  `parse_and_validate("__import__('os')")` does
fail — but not with `UnsafeConstruct`: the expression's `Call`, `Name` and
`Constant` nodes are all in `_validate_ast`'s whitelist, so static validation
passes (first conjunct) and the failure is the evaluation-time unknown-binding
`NameError` (the spec's `UnknownBinding`), contradicting the claim that this
input fails with `UnsafeConstruct`. -/
theorem c1_counterexample :
    validateAst importOsExpr = .ok () ∧
    ExpressionParser_evaluate importOsExpr [] = .error (.unknownBinding "__import__") ∧
    isUnsafeConstructFailure (ExpressionParser_evaluate importOsExpr []) = false :=
  ⟨rfl, rfl, rfl⟩

/-- Claim C1, amended.  Validation fails with `UnsafeConstruct` whenever the
source contains a syntax node outside the fixed whitelist; and
`parse_and_validate("__import__('os')")` and `parse_and_validate("exec('x')")`
both fail — with the unknown-binding error (neither name is bound and `Call`
itself is whitelisted), not with `UnsafeConstruct` — while `"a + b"` with
known bindings succeeds. -/
theorem c1_safety_rejection :
    (∀ (e : PyExpr) (ctx : Ctx), hasUnsafeNode e = true →
        isUnsafeConstructFailure (SafeExpressionParser_parse e ctx) = true) ∧
    ExpressionParser_evaluate importOsExpr [] = .error (.unknownBinding "__import__") ∧
    ExpressionParser_evaluate execExpr [] = .error (.unknownBinding "exec") ∧
    ExpressionParser_evaluate aPlusBExpr [("a", .vInt 1), ("b", .vInt 2)] = .ok (.vInt 3) := by
  refine ⟨?_, rfl, rfl, rfl⟩
  intro e ctx h
  have hv := validateAst_exceptOk e
  rw [h] at hv
  simp only [Bool.not_true] at hv
  cases heq : validateAst e with
  | error m => simp [SafeExpressionParser_parse, heq, isUnsafeConstructFailure]
  | ok u =>
      rw [heq] at hv
      simp [exceptOk] at hv

/-- Witness for c1_safety_rejection: a lambda node (legal eval-mode Python,
outside the whitelist) is rejected as an unsafe construct. -/
theorem c1_safety_rejection_witness :
    hasUnsafeNode (.lambda_ ["x"] (.name "x")) = true ∧
    isUnsafeConstructFailure
      (SafeExpressionParser_parse (.lambda_ ["x"] (.name "x")) []) = true :=
  ⟨rfl, c1_safety_rejection.1 (.lambda_ ["x"] (.name "x")) [] rfl⟩

theorem errBind (e : ε) (f : α → Except ε β) : (Except.error e >>= f) = Except.error e := rfl

theorem okBind (a : α) (f : α → Except ε β) : (Except.ok a >>= f) = f a := rfl

theorem mapExcept_ok_length (f : α → Except ε β) :
    ∀ (xs : List α) (ys : List β), mapExcept f xs = .ok ys → ys.length = xs.length := by
  intro xs
  induction xs with
  | nil =>
      intro ys h
      cases h
      rfl
  | cons x xs ih =>
      intro ys h
      simp only [mapExcept] at h
      cases hx : f x with
      | error e => rw [hx] at h; simp [errBind] at h
      | ok v =>
          rw [hx] at h
          cases hrest : mapExcept f xs with
          | error e =>
              rw [hrest] at h
              simp [errBind, okBind] at h
          | ok vs =>
              rw [hrest] at h
              simp only [okBind, pure, Except.pure] at h
              cases h
              simp [ih vs hrest]

/-- Claim C6.  A Filter stage never changes the column length: whatever the
condition and fill value, every produced output has exactly the input's
length (elements failing the condition are replaced, never removed). -/
theorem c6_filter_length_invariant
    (cond : Value → Except String Value) (fillValue : Value)
    (series out : List Value)
    (h : FilterOperation_apply cond fillValue series = .ok out) :
    out.length = series.length := by
  unfold FilterOperation_apply at h
  cases hm : mapExcept cond series with
  | error e => rw [hm] at h; cases h
  | ok mask =>
      rw [hm] at h
      cases h
      have hlen := mapExcept_ok_length cond series mask hm
      simp [List.length_zip, hlen]

/-- Witness for c6_filter_length_invariant: a condition that masks every
element out still yields a column of the input's length. -/
theorem c6_filter_length_invariant_witness :
    FilterOperation_apply (fun _ => .ok (.vBool false)) .vNan [.vInt 1, .vInt 2] =
      .ok [.vNan, .vNan] ∧
    ([Value.vNan, Value.vNan].length = [Value.vInt 1, Value.vInt 2].length) :=
  ⟨rfl, c6_filter_length_invariant (fun _ => .ok (.vBool false)) .vNan
    [.vInt 1, .vInt 2] [.vNan, .vNan] rfl⟩

/-- Claim C10.  The engine's error tolerance is capped even when
`ignore_errors` is set: once the recorded error count has reached
`max_errors`, recording the next error raises the budget `ValidationError`
(first conjunct, for any state and any `ignore_errors`); `max_errors`
defaults to 100 (second conjunct); and the raise aborts the whole transform —
a run with `max_errors = 1`, `ignore_errors = true` and one failing column
ends in the budget error instead of tolerating it (third conjunct). -/
theorem c10_error_budget :
    (∀ (maxE : Nat) (ignore : Bool) (errors : List String) (msg : String),
        maxE ≤ errors.length →
        handleError maxE ignore errors msg =
          .error ("Maximum number of errors (" ++ toString maxE ++ ") exceeded")) ∧
    ({} : GlobalSettings).maxErrors = 100 ∧
    TransformationEngine_transform
        { columns := [("y", failingCol)]
          settings := { maxErrors := 1, ignoreErrors := true } }
        dfA123 =
      .error "Maximum number of errors (1) exceeded" := by
  refine ⟨?_, rfl, rfl⟩
  intro maxE ignore errors msg h
  unfold handleError
  rw [if_pos]
  simp only [List.length_append, List.length_cons, List.length_nil]
  omega

/-- Witness for c10_error_budget: with a budget of 2 and two errors already
recorded, the next recorded error raises the budget error even though
`ignore_errors` is set. -/
theorem c10_error_budget_witness :
    handleError 2 true ["e1", "e2"] "e3" =
      .error ("Maximum number of errors (" ++ toString 2 ++ ") exceeded") :=
  c10_error_budget.1 2 true ["e1", "e2"] "e3" (by decide)

/-! ## Soundness of the topological sort

The lemmas below characterize one iteration of the Kahn loop
(`processDependents_indeg`, `processDependents_queue`), show the fuel bound is
sufficient (`processDependents_measure`, `kahnLoop_fuel_stable`), and carry
the loop invariant through to the soundness theorem for claim C3. -/

theorem processDependents_indeg (keys : List String) :
    ∀ (ds : List String) (indeg : String → Int) (queue : List String) (k : String),
      ds.Nodup →
      (processDependents keys ds indeg queue).1 k =
        if k ∈ ds ∧ k ∈ keys then indeg k - 1 else indeg k := by
  intro ds
  induction ds with
  | nil =>
      intro indeg queue k _
      simp [processDependents]
  | cons d ds ih =>
      intro indeg queue k hnd
      have hd : d ∉ ds := (List.nodup_cons.mp hnd).1
      have hnd' : ds.Nodup := (List.nodup_cons.mp hnd).2
      by_cases hdk : keys.contains d = true
      · have hdm : d ∈ keys := by simpa using hdk
        simp only [processDependents, hdk, if_true]
        rw [ih _ _ k hnd']
        by_cases hkd : k = d
        · subst hkd
          simp [hd, hdm]
        · simp [hkd, List.mem_cons]
      · have hdm : d ∉ keys := by simpa using hdk
        simp only [processDependents, hdk, Bool.false_eq_true, if_false]
        rw [ih _ _ k hnd']
        by_cases hkd : k = d
        · subst hkd
          simp [hd, hdm]
        · simp [hkd, List.mem_cons]

theorem processDependents_queue (keys : List String) :
    ∀ (ds : List String) (indeg : String → Int) (queue : List String),
      ds.Nodup →
      (processDependents keys ds indeg queue).2 =
        queue ++ ds.filter (fun d => keys.contains d && (indeg d - 1 == 0)) := by
  intro ds
  induction ds with
  | nil =>
      intro indeg queue _
      simp [processDependents]
  | cons d ds ih =>
      intro indeg queue hnd
      have hd : d ∉ ds := (List.nodup_cons.mp hnd).1
      have hnd' : ds.Nodup := (List.nodup_cons.mp hnd).2
      by_cases hdk : keys.contains d = true
      · simp only [processDependents, hdk, if_true]
        rw [ih _ _ hnd']
        have hfc : List.filter (fun x => keys.contains x &&
              ((if x = d then indeg d - 1 else indeg x) - 1 == 0)) ds =
            List.filter (fun x => keys.contains x && (indeg x - 1 == 0)) ds := by
          apply List.filter_congr
          intro x hx
          have hxd : ¬ x = d := fun h => hd (h ▸ hx)
          simp only [if_neg hxd]
        simp only [hfc]
        have hdm : d ∈ keys := by simpa using hdk
        by_cases hz : indeg d - 1 = 0
        · have hcond : (keys.contains d && (indeg d - 1 == 0)) = true := by
            simp [hdm, hz]
          rw [if_pos hz]
          simp only [List.filter_cons, hcond, if_true, List.append_assoc,
            List.singleton_append]
        · have hcond : (keys.contains d && (indeg d - 1 == 0)) = false := by
            simp [hz]
          rw [if_neg hz]
          simp only [List.filter_cons, hcond, Bool.false_eq_true, if_false]
      · simp only [processDependents, hdk, Bool.false_eq_true, if_false]
        rw [ih _ _ hnd']
        have hdm : d ∉ keys := by simpa using hdk
        have hcond : (keys.contains d && (indeg d - 1 == 0)) = false := by
          simp [hdm]
        simp only [List.filter_cons, hcond, Bool.false_eq_true, if_false]

theorem sumIndeg_cons (k : String) (ks : List String) (f : String → Int) :
    sumIndeg (k :: ks) f = (f k).toNat + sumIndeg ks f := by
  simp [sumIndeg]

theorem sumIndeg_update_le (keys : List String) (indeg : String → Int) (d : String) :
    sumIndeg keys (fun k => if k = d then indeg d - 1 else indeg k) ≤ sumIndeg keys indeg := by
  unfold sumIndeg
  apply List.sum_le_sum
  intro k _
  by_cases h : k = d
  · subst h
    simp only [if_pos rfl]
    omega
  · simp [h]

theorem sumIndeg_update_hit (keys : List String) (indeg : String → Int) (d : String)
    (hd : d ∈ keys) (h1 : indeg d - 1 = 0) :
    sumIndeg keys (fun k => if k = d then indeg d - 1 else indeg k) + 1 ≤
      sumIndeg keys indeg := by
  induction keys with
  | nil => cases hd
  | cons k ks ih =>
      by_cases hkd : k = d
      · subst hkd
        have htail := sumIndeg_update_le ks indeg k
        rw [sumIndeg_cons, sumIndeg_cons]
        simp only [eq_self_iff_true, if_true]
        omega
      · rcases List.mem_cons.mp hd with h | h
        · exact absurd h.symm hkd
        · have htail := ih h
          rw [sumIndeg_cons, sumIndeg_cons]
          simp only [if_neg hkd]
          omega

theorem processDependents_measure (keys : List String) :
    ∀ (ds : List String) (indeg : String → Int) (queue : List String),
      (processDependents keys ds indeg queue).2.length +
          sumIndeg keys (processDependents keys ds indeg queue).1 ≤
        queue.length + sumIndeg keys indeg := by
  intro ds
  induction ds with
  | nil =>
      intro indeg queue
      simp [processDependents]
  | cons d ds ih =>
      intro indeg queue
      by_cases hdk : keys.contains d = true
      · have hdm : d ∈ keys := by simpa using hdk
        simp only [processDependents, hdk, if_true]
        by_cases hz : indeg d - 1 = 0
        · rw [if_pos hz]
          have hstep := sumIndeg_update_hit keys indeg d hdm hz
          have hrec := ih (fun k => if k = d then indeg d - 1 else indeg k) (queue ++ [d])
          simp only [List.length_append, List.length_cons, List.length_nil] at hrec ⊢
          omega
        · rw [if_neg hz]
          have hstep := sumIndeg_update_le keys indeg d
          have hrec := ih (fun k => if k = d then indeg d - 1 else indeg k) queue
          omega
      · simp only [processDependents, hdk, Bool.false_eq_true, if_false]
        exact ih indeg queue

theorem kahnLoop_fuel_stable (keys : List String) (rev : String → List String) :
    ∀ (fuel : Nat) (queue : List String) (indeg : String → Int) (order : List String),
      queue.length + sumIndeg keys indeg ≤ fuel →
      kahnLoop keys rev fuel queue indeg order =
        kahnLoop keys rev (fuel + 1) queue indeg order := by
  intro fuel
  induction fuel with
  | zero =>
      intro queue indeg order h
      cases queue with
      | nil => rfl
      | cons current rest =>
          exfalso
          simp only [List.length_cons] at h
          omega
  | succ f ih =>
      intro queue indeg order h
      cases queue with
      | nil => rfl
      | cons current rest =>
          simp only [kahnLoop]
          apply ih
          have hm := processDependents_measure keys (rev current) indeg rest
          simp only [List.length_cons] at h
          omega

/-- The loop invariant of Kahn's algorithm, over the state
(queue, in-degree map, order built so far). -/
structure KahnInv (keys : List String) (deps : String → List String)
    (queue : List String) (indeg : String → Int) (order : List String) : Prop where
  queueNodup : queue.Nodup
  orderNodup : order.Nodup
  queueNotPlaced : ∀ x ∈ queue, x ∉ order
  queueKeys : ∀ x ∈ queue, x ∈ keys
  orderKeys : ∀ x ∈ order, x ∈ keys
  queueReady : ∀ x ∈ queue, ∀ b ∈ deps x, b ∈ keys → b ∈ order
  indegCount : ∀ k ∈ keys, k ∉ queue → k ∉ order →
      indeg k = (((deps k).filter (fun b => keys.contains b && !order.contains b)).length : Int) ∧
      indeg k ≠ 0
  placedBefore : ∀ a ∈ order, ∀ b ∈ deps a, b ∈ keys → [b, a].Sublist order

theorem filter_length_sub_one {l : List String} {c : String} {P : String → Bool}
    (hnd : l.Nodup) (hc : c ∈ l) (hP : P c = true) :
    (l.filter (fun b => P b && !(b == c))).length + 1 = (l.filter P).length := by
  induction l with
  | nil => cases hc
  | cons x xs ih =>
      have hx : x ∉ xs := (List.nodup_cons.mp hnd).1
      have hnd' : xs.Nodup := (List.nodup_cons.mp hnd).2
      by_cases hxc : x = c
      · subst hxc
        have hfc : xs.filter (fun b => P b && !(b == x)) = xs.filter P := by
          apply List.filter_congr
          intro b hb
          have : (b == x) = false := by
            simp only [beq_eq_false_iff_ne]
            exact fun h => hx (h ▸ hb)
          simp [this]
        simp [List.filter_cons, hP, hfc]
      · rcases List.mem_cons.mp hc with h | h
        · exact absurd h.symm hxc
        · have hxb : (x == c) = false := by
            simp only [beq_eq_false_iff_ne]
            exact hxc
          cases hPx : P x
          · simp only [List.filter_cons, hPx, Bool.false_and, Bool.false_eq_true, if_false]
            exact ih hnd' h
          · simp only [List.filter_cons, hPx, hxb, Bool.and_true, Bool.not_false,
              Bool.true_and, if_true, List.length_cons]
            have := ih hnd' h
            omega

theorem filter_length_one_unique {l : List String} {P : String → Bool}
    (_hnd : l.Nodup) (hlen : (l.filter P).length = 1) {a b : String}
    (ha : a ∈ l) (hPa : P a = true) (hb : b ∈ l) (hPb : P b = true) : a = b := by
  have hfa : a ∈ l.filter P := List.mem_filter.mpr ⟨ha, hPa⟩
  have hfb : b ∈ l.filter P := List.mem_filter.mpr ⟨hb, hPb⟩
  rcases List.length_eq_one.mp hlen with ⟨x, hx⟩
  rw [hx] at hfa hfb
  have h1 := List.mem_singleton.mp hfa
  have h2 := List.mem_singleton.mp hfb
  rw [h1, h2]

theorem lookup_map_prop {γ : Type} (g : String × γ → List String)
    (Q : String → List String → Prop)
    (hg : ∀ p, Q p.1 (g p)) (hnil : ∀ k, Q k [])
    (l : List (String × γ)) (k : String) :
    Q k (((l.map (fun p => (p.1, g p))).lookup k).getD []) := by
  induction l with
  | nil => exact hnil k
  | cons p ps ih =>
      by_cases h : k == p.1
      · have hk : k = p.1 := eq_of_beq h
        simp only [List.map_cons, List.lookup, h, Option.getD_some]
        rw [hk]
        exact hg p
      · have hb : (k == p.1) = false := by
          cases hbe : (k == p.1)
          · rfl
          · exact absurd hbe h
        simp only [List.map_cons, List.lookup, hb]
        exact ih

theorem sublist_pair_indexOf_lt {l : List String} (hnd : l.Nodup) {a b : String}
    (hs : [b, a].Sublist l) : l.indexOf b < l.indexOf a := by
  induction l with
  | nil => cases hs
  | cons x xs ih =>
      have hx : x ∉ xs := (List.nodup_cons.mp hnd).1
      have hnd' : xs.Nodup := (List.nodup_cons.mp hnd).2
      cases hs with
      | cons _ h' =>
          have hbmem : b ∈ xs := (h'.subset) (List.mem_cons_self b [a])
          have hamem : a ∈ xs := (h'.subset) (by simp)
          have hbx : b ≠ x := fun h => hx (h ▸ hbmem)
          have hax : a ≠ x := fun h => hx (h ▸ hamem)
          rw [List.indexOf_cons_ne _ (Ne.symm hbx), List.indexOf_cons_ne _ (Ne.symm hax)]
          exact Nat.succ_lt_succ (ih hnd' h')
      | cons₂ _ h' =>
          have hamem : a ∈ xs := (h'.subset) (by simp)
          have hax : a ≠ b := fun h => hx (h ▸ hamem)
          rw [List.indexOf_cons_self]
          rw [List.indexOf_cons_ne _ (Ne.symm hax)]
          exact Nat.succ_pos _

theorem kahnInv_step (keys : List String) (deps : String → List String)
    (hkeys : keys.Nodup) (hdn : ∀ k, (deps k).Nodup)
    (current : String) (rest : List String) (indeg : String → Int) (order : List String)
    (inv : KahnInv keys deps (current :: rest) indeg order) :
    KahnInv keys deps
      (processDependents keys (keys.filter (fun k => (deps k).contains current)) indeg rest).2
      (processDependents keys (keys.filter (fun k => (deps k).contains current)) indeg rest).1
      (order ++ [current]) := by
  set R := keys.filter (fun k => (deps k).contains current) with hR
  have hRnd : R.Nodup := hkeys.filter _
  have hcur_k : current ∈ keys := inv.queueKeys current (List.mem_cons_self _ _)
  have hcur_no : current ∉ order := inv.queueNotPlaced current (List.mem_cons_self _ _)
  have hqnd := List.nodup_cons.mp inv.queueNodup
  have hcur_rest : current ∉ rest := hqnd.1
  have hrest_nd : rest.Nodup := hqnd.2
  have hR_mem : ∀ d ∈ R, d ∈ keys ∧ current ∈ deps d := by
    intro d hd
    have := List.mem_filter.mp hd
    exact ⟨this.1, by simpa using this.2⟩
  have hF2 : ∀ d ∈ R, d ∉ order := by
    intro d hd hdo
    have hsub := inv.placedBefore d hdo current (hR_mem d hd).2 hcur_k
    exact hcur_no (hsub.subset (List.mem_cons_self _ _))
  have hF3 : ∀ d ∈ R, d ∉ current :: rest := by
    intro d hd hdq
    exact hcur_no (inv.queueReady d hdq current (hR_mem d hd).2 hcur_k)
  rw [processDependents_queue keys R indeg rest hRnd,
    ]
  have hindeg : ∀ k, (processDependents keys R indeg rest).1 k =
      if k ∈ R ∧ k ∈ keys then indeg k - 1 else indeg k :=
    fun k => processDependents_indeg keys R indeg rest k hRnd
  set NZ := R.filter (fun d => keys.contains d && (indeg d - 1 == 0)) with hNZ
  have hNZ_mem : ∀ d ∈ NZ, d ∈ R ∧ indeg d = 1 := by
    intro d hd
    have := List.mem_filter.mp hd
    refine ⟨this.1, ?_⟩
    have h2 := this.2
    have : (indeg d - 1 == 0) = true := by
      cases h : (indeg d - 1 == 0)
      · rw [h] at h2; simp at h2
      · rfl
    have := beq_iff_eq.mp this
    omega
  constructor
  case queueNodup =>
    refine List.Nodup.append hrest_nd (hRnd.filter _) ?_
    intro x hx1 hx2
    exact hF3 x (hNZ_mem x hx2).1 (List.mem_cons_of_mem _ hx1)
  case orderNodup =>
    refine List.Nodup.append inv.orderNodup (List.nodup_singleton _) ?_
    intro x hx1 hx2
    rw [List.mem_singleton.mp hx2] at hx1
    exact hcur_no hx1
  case queueNotPlaced =>
    intro x hx hxo
    rcases List.mem_append.mp hxo with h | h
    · rcases List.mem_append.mp hx with h1 | h1
      · exact inv.queueNotPlaced x (List.mem_cons_of_mem _ h1) h
      · exact hF2 x (hNZ_mem x h1).1 h
    · have hxc : x = current := List.mem_singleton.mp h
      rcases List.mem_append.mp hx with h1 | h1
      · exact hcur_rest (hxc ▸ h1)
      · exact hF3 x (hNZ_mem x h1).1 (hxc ▸ List.mem_cons_self _ _)
  case queueKeys =>
    intro x hx
    rcases List.mem_append.mp hx with h | h
    · exact inv.queueKeys x (List.mem_cons_of_mem _ h)
    · exact (hR_mem x (hNZ_mem x h).1).1
  case orderKeys =>
    intro x hx
    rcases List.mem_append.mp hx with h | h
    · exact inv.orderKeys x h
    · exact (List.mem_singleton.mp h) ▸ hcur_k
  case queueReady =>
    intro x hx b hb hbk
    rcases List.mem_append.mp hx with h | h
    · exact List.mem_append.mpr (Or.inl (inv.queueReady x (List.mem_cons_of_mem _ h) b hb hbk))
    · -- x is a freshly enqueued dependent: its in-degree was 1, so its only
      -- outstanding dependency was current
      have hxR := (hNZ_mem x h).1
      have hx1 := (hNZ_mem x h).2
      have hxk : x ∈ keys := (hR_mem x hxR).1
      have hxq : x ∉ current :: rest := hF3 x hxR
      have hxo : x ∉ order := hF2 x hxR
      have hcnt := (inv.indegCount x hxk hxq hxo).1
      rw [hx1] at hcnt
      by_cases hbo : b ∈ order
      · exact List.mem_append.mpr (Or.inl hbo)
      · have hPb : (keys.contains b && !order.contains b) = true := by
          simp [hbk, hbo]
        have hPc : (keys.contains current && !order.contains current) = true := by
          simp [hcur_k, hcur_no]
        have hlen1 : ((deps x).filter (fun b => keys.contains b && !order.contains b)).length = 1 := by
          omega
        have := filter_length_one_unique (hdn x) hlen1 hb hPb (hR_mem x hxR).2 hPc
        rw [this]
        exact List.mem_append.mpr (Or.inr (List.mem_singleton_self _))
  case indegCount =>
    intro k hk hkq hko
    have hknc : k ≠ current := by
      intro h
      exact hko (List.mem_append.mpr (Or.inr (h ▸ List.mem_singleton_self _)))
    have hkrest : k ∉ rest := fun h => hkq (List.mem_append.mpr (Or.inl h))
    have hkNZ : k ∉ NZ := fun h => hkq (List.mem_append.mpr (Or.inr h))
    have hkoldq : k ∉ current :: rest := by
      intro h
      rcases List.mem_cons.mp h with h | h
      · exact hknc h
      · exact hkrest h
    have hkoldo : k ∉ order := fun h => hko (List.mem_append.mpr (Or.inl h))
    have hcnt := inv.indegCount k hk hkoldq hkoldo
    rw [hindeg k]
    have hcontains_append : ∀ b : String, (order ++ [current]).contains b =
        (order.contains b || (b == current)) := by
      intro b
      cases hbc : (b == current)
      · have hb : b ≠ current := by simpa using hbc
        simp [List.mem_append, hb]
      · have hb : b = current := by simpa using hbc
        subst hb
        simp [List.mem_append]
    by_cases hkR : k ∈ R
    · rw [if_pos ⟨hkR, hk⟩]
      have hcin : current ∈ deps k := (hR_mem k hkR).2
      have hPc : (keys.contains current && !order.contains current) = true := by
        simp [hcur_k, hcur_no]
      have hsub : ((deps k).filter (fun b =>
            (keys.contains b && !order.contains b) && !(b == current))).length + 1 =
          ((deps k).filter (fun b => keys.contains b && !order.contains b)).length :=
        @filter_length_sub_one (deps k) current
          (fun b => keys.contains b && !order.contains b) (hdn k) hcin hPc
      have hfeq : (deps k).filter (fun b =>
            keys.contains b && !(order ++ [current]).contains b) =
          (deps k).filter (fun b =>
            (keys.contains b && !order.contains b) && !(b == current)) := by
        apply List.filter_congr
        intro b _
        rw [hcontains_append b]
        cases hb1 : keys.contains b <;> cases hb2 : order.contains b <;>
          cases hb3 : (b == current) <;> rfl
      constructor
      · rw [hfeq]
        omega
      · -- k was decremented but not enqueued, so its new in-degree is not 0
        have : ¬ (keys.contains k && (indeg k - 1 == 0)) = true := by
          intro hcond
          exact hkNZ (List.mem_filter.mpr ⟨hkR, hcond⟩)
        have hkc : keys.contains k = true := by simpa using hk
        rw [hkc] at this
        simp only [Bool.true_and] at this
        intro hzero
        exact this (by simp [hzero])
    · rw [if_neg (fun h => hkR h.1)]
      have hcnot : current ∉ deps k := by
        intro hcd
        exact hkR (List.mem_filter.mpr ⟨hk, by simpa using hcd⟩)
      have hfeq : (deps k).filter (fun b =>
            keys.contains b && !(order ++ [current]).contains b) =
          (deps k).filter (fun b => keys.contains b && !order.contains b) := by
        apply List.filter_congr
        intro b hb
        have hbc : (b == current) = false := by
          simp only [beq_eq_false_iff_ne]
          exact fun h => hcnot (h ▸ hb)
        rw [hcontains_append b, hbc]
        simp
      rw [hfeq]
      exact hcnt
  case placedBefore =>
    intro a ha b hb hbk
    rcases List.mem_append.mp ha with h | h
    · exact (inv.placedBefore a h b hb hbk).trans (List.sublist_append_left order [current])
    · have hac : a = current := List.mem_singleton.mp h
      subst hac
      have hbo : b ∈ order := inv.queueReady a (List.mem_cons_self _ _) b hb hbk
      have h1 : [b].Sublist order := List.singleton_sublist.mpr hbo
      exact h1.append (List.Sublist.refl [a])

theorem kahnInv_init (keys : List String) (deps : String → List String)
    (hkeys : keys.Nodup) :
    KahnInv keys deps
      (keys.filter (fun k =>
        (((deps k).filter (fun d => keys.contains d)).length : Int) == 0))
      (fun k => (((deps k).filter (fun d => keys.contains d)).length : Int))
      [] := by
  constructor
  case queueNodup => exact hkeys.filter _
  case orderNodup => exact List.nodup_nil
  case queueNotPlaced => intro x _ hx; cases hx
  case queueKeys => intro x hx; exact (List.mem_filter.mp hx).1
  case orderKeys => intro x hx; cases hx
  case queueReady =>
    intro x hx b hb hbk
    exfalso
    have hcond := (List.mem_filter.mp hx).2
    have hz : (((deps x).filter (fun d => keys.contains d)).length : Int) = 0 :=
      beq_iff_eq.mp hcond
    have hlen : ((deps x).filter (fun d => keys.contains d)).length = 0 := by omega
    have hnil := List.length_eq_zero.mp hlen
    have : b ∈ (deps x).filter (fun d => keys.contains d) :=
      List.mem_filter.mpr ⟨hb, by simpa using hbk⟩
    rw [hnil] at this
    cases this
  case indegCount =>
    intro k hk hkq _
    have hfeq : (deps k).filter (fun b => keys.contains b && !([] : List String).contains b) =
        (deps k).filter (fun d => keys.contains d) := by
      apply List.filter_congr
      intro b _
      simp
    constructor
    · rw [hfeq]
    · intro hz
      apply hkq
      refine List.mem_filter.mpr ⟨hk, ?_⟩
      exact beq_iff_eq.mpr hz
  case placedBefore => intro a ha; cases ha

theorem kahnLoop_sound (keys : List String) (deps : String → List String)
    (hkeys : keys.Nodup) (hdn : ∀ k, (deps k).Nodup)
    (rev : String → List String)
    (hrev : ∀ c, rev c = keys.filter (fun k => (deps k).contains c)) :
    ∀ (fuel : Nat) (queue : List String) (indeg : String → Int) (order : List String),
      KahnInv keys deps queue indeg order →
      (kahnLoop keys rev fuel queue indeg order).Nodup ∧
      (∀ x ∈ kahnLoop keys rev fuel queue indeg order, x ∈ keys) ∧
      (∀ a ∈ kahnLoop keys rev fuel queue indeg order, ∀ b ∈ deps a, b ∈ keys →
        [b, a].Sublist (kahnLoop keys rev fuel queue indeg order)) := by
  intro fuel
  induction fuel with
  | zero =>
      intro queue indeg order inv
      cases queue with
      | nil => exact ⟨inv.orderNodup, inv.orderKeys, inv.placedBefore⟩
      | cons current rest => exact ⟨inv.orderNodup, inv.orderKeys, inv.placedBefore⟩
  | succ f ih =>
      intro queue indeg order inv
      cases queue with
      | nil => exact ⟨inv.orderNodup, inv.orderKeys, inv.placedBefore⟩
      | cons current rest =>
          simp only [kahnLoop]
          rw [hrev current]
          exact ih _ _ _ (kahnInv_step keys deps hkeys hdn current rest indeg order inv)

theorem depsOf_buildDependencyGraph_nodup (columns : ColumnSpecs)
    (inputColumns : List String) :
    ∀ k, (depsOf (buildDependencyGraph columns inputColumns) k).Nodup := by
  intro k
  exact lookup_map_prop
    (fun p => ((rawColumnDeps p.1 p.2
        (inputColumns ++ columnKeys columns)).dedup).filter
      (fun dep => dep ≠ p.1 ∧
        (inputColumns.contains dep ∨ (columnKeys columns).contains dep)))
    (fun _ d => d.Nodup)
    (fun p => (List.nodup_dedup _).filter _)
    (fun _ => List.nodup_nil)
    columns k

/-- Soundness of `resolve_execution_order`: when it returns an order, that
order is duplicate-free, is a permutation of the declared output columns, and
places every dependency strictly before its dependent. -/
theorem resolveExecutionOrder_sound (columns : ColumnSpecs) (inputColumns : List String)
    (order : List String) (hnd : (columnKeys columns).Nodup)
    (hok : resolveExecutionOrder columns inputColumns = .ok order) :
    order.Nodup ∧ order.Perm (columnKeys columns) ∧
    (∀ a ∈ columnKeys columns,
      ∀ b ∈ depsOf (buildDependencyGraph columns inputColumns) a,
        b ∈ columnKeys columns → order.indexOf b < order.indexOf a) := by
  have hdn := depsOf_buildDependencyGraph_nodup columns inputColumns
  have hsound := kahnLoop_sound (columnKeys columns)
    (depsOf (buildDependencyGraph columns inputColumns)) hnd hdn
    (revAdj (buildDependencyGraph columns inputColumns) (columnKeys columns))
    (fun c => rfl)
  simp only [resolveExecutionOrder] at hok
  split at hok
  case isFalse => cases hok
  case isTrue hlen =>
      have horder0 : kahnPlacedOrder columns inputColumns = order := Except.ok.inj hok
      have horder : kahnLoop (columnKeys columns)
          (revAdj (buildDependencyGraph columns inputColumns) (columnKeys columns))
          (((columnKeys columns).filter (fun k =>
            initialIndeg (buildDependencyGraph columns inputColumns)
              (columnKeys columns) k == 0)).length +
            sumIndeg (columnKeys columns)
              (initialIndeg (buildDependencyGraph columns inputColumns) (columnKeys columns)))
          ((columnKeys columns).filter (fun k =>
            initialIndeg (buildDependencyGraph columns inputColumns)
              (columnKeys columns) k == 0))
          (initialIndeg (buildDependencyGraph columns inputColumns) (columnKeys columns))
          [] = order := horder0
      have hinit := kahnInv_init (columnKeys columns)
        (depsOf (buildDependencyGraph columns inputColumns)) hnd
      have hres := hsound
        (((columnKeys columns).filter (fun k =>
            initialIndeg (buildDependencyGraph columns inputColumns)
              (columnKeys columns) k == 0)).length +
          sumIndeg (columnKeys columns)
            (initialIndeg (buildDependencyGraph columns inputColumns) (columnKeys columns)))
        ((columnKeys columns).filter (fun k =>
            initialIndeg (buildDependencyGraph columns inputColumns)
              (columnKeys columns) k == 0))
        (initialIndeg (buildDependencyGraph columns inputColumns) (columnKeys columns))
        [] hinit
      rw [horder] at hres
      rw [horder0] at hlen
      obtain ⟨hond, hsub, hplaced⟩ := hres
      have hsubset : order ⊆ columnKeys columns := fun x hx => hsub x hx
      have hkeyslen : (columnKeys columns).length = columns.length := by
        simp [columnKeys]
      have hperm : order.Perm (columnKeys columns) := by
        refine (List.subperm_of_subset hond hsubset).perm_of_length_le ?_
        omega
      refine ⟨hond, hperm, ?_⟩
      intro a ha b hb hbk
      have hao : a ∈ order := hperm.mem_iff.mpr ha
      exact sublist_pair_indexOf_lt hond (hplaced a hao b hb hbk)

/-- Claim C3.  For every ColumnSpec set whose output-column dependency graph
has no cycle — which in this code means exactly that resolution places every
column, since a cycle is detected as a placement shortfall — the resolved
execution order is topologically valid: every dependency `b` of a column `a`
(both output columns) sits at a strictly smaller position. -/
theorem c3_topological_validity (columns : ColumnSpecs) (inputColumns : List String)
    (order : List String) (hnd : (columnKeys columns).Nodup)
    (hok : resolveExecutionOrder columns inputColumns = .ok order)
    (a b : String) (ha : a ∈ columnKeys columns)
    (hedge : b ∈ depsOf (buildDependencyGraph columns inputColumns) a)
    (hbk : b ∈ columnKeys columns) :
    order.indexOf b < order.indexOf a :=
  (resolveExecutionOrder_sound columns inputColumns order hnd hok).2.2 a ha b hedge hbk

/-- Witness for c3_topological_validity: in the acyclic configuration
`t = a + 1`, `u = t * 2` the resolver returns `["t", "u"]` and the edge
`u → t` is respected. -/
theorem c3_topological_validity_witness :
    resolveExecutionOrder c9Config.columns ["a"] = .ok ["t", "u"] ∧
    ["t", "u"].indexOf "t" < ["t", "u"].indexOf "u" :=
  ⟨rfl, c3_topological_validity c9Config.columns ["a"] ["t", "u"] (by decide) rfl
    "u" "t" (by decide) (by decide) (by decide)⟩

/-- Claim C7.  Whenever topological resolution places fewer columns than there
are output columns, the raised cycle error names exactly the output columns
excluded from the placed set (first conjunct, for every configuration); and
for `A: "B + 1"`, `B: "A + 1"` resolution fails with exactly `{A, B}` (second
conjunct). -/
theorem c7_cycle_error_remainder :
    (∀ (columns : ColumnSpecs) (inputColumns : List String) (rem : List String),
        resolveExecutionOrder columns inputColumns = .error (.cycleDetected rem) →
        ∀ k, k ∈ rem ↔
          (k ∈ columnKeys columns ∧ k ∉ kahnPlacedOrder columns inputColumns)) ∧
    resolveExecutionOrder cyclicConfig [] = .error (.cycleDetected ["A", "B"]) := by
  constructor
  · intro columns inputColumns rem hok k
    simp only [resolveExecutionOrder] at hok
    split at hok
    case isTrue => cases hok
    case isFalse hne =>
        have hrem : (columnKeys columns).filter
            (fun k => ¬ (kahnPlacedOrder columns inputColumns).contains k) = rem :=
          ResolveError.cycleDetected.inj (Except.error.inj hok)
        rw [← hrem]
        simp [List.mem_filter]
  · rfl

/-- Witness for c7_cycle_error_remainder: `A` is named by the error and is
indeed an output column missing from the placed set. -/
theorem c7_cycle_error_remainder_witness :
    "A" ∈ ["A", "B"] ∧ "A" ∈ columnKeys cyclicConfig ∧
    (kahnPlacedOrder cyclicConfig []).contains "A" = false := by
  have h := (c7_cycle_error_remainder.1 cyclicConfig [] ["A", "B"]
    c7_cycle_error_remainder.2 "A").mp (by decide)
  refine ⟨by decide, h.1, ?_⟩
  cases hc : (kahnPlacedOrder cyclicConfig []).contains "A"
  · rfl
  · exact absurd (by simpa using hc) h.2

/-- Claim C8, counterexample.  In the configuration `x: "w + 1"`, `w`, `v`
(declared in that order), once `w` is placed both `x` and `v` have in-degree
zero — a tie that declaration order would break as `x` before `v` (`x` is
first-declared).  The code's FIFO queue instead yields `[w, v, x]`: later
ties are served in the order in-degrees reach zero, not declaration order,
refuting the claim's "including later ties" clause. -/
theorem c8_counterexample :
    resolveExecutionOrder c8Config [] = .ok ["w", "v", "x"] ∧
    ["w", "v", "x"].indexOf "v" < ["w", "v", "x"].indexOf "x" ∧
    columnKeys c8Config = ["x", "w", "v"] :=
  ⟨rfl, by decide, rfl⟩

theorem kahnLoop_no_edges (keys : List String) (rev : String → List String) :
    ∀ (queue : List String) (fuel : Nat) (indeg : String → Int) (order : List String),
      (∀ c ∈ queue, rev c = []) → queue.length ≤ fuel →
      kahnLoop keys rev fuel queue indeg order = order ++ queue := by
  intro queue
  induction queue with
  | nil =>
      intro fuel indeg order _ _
      cases fuel <;> simp [kahnLoop]
  | cons current rest ih =>
      intro fuel indeg order hrev hlen
      cases fuel with
      | zero => simp at hlen
      | succ f =>
          simp only [kahnLoop, hrev current (List.mem_cons_self _ _), processDependents]
          rw [ih f indeg (order ++ [current])
            (fun c hc => hrev c (List.mem_cons_of_mem _ hc))
            (by simp only [List.length_cons] at hlen; omega)]
          simp

/-- Claim C8, amended.  Resolution is a pure function of the
declaration-ordered ColumnSpec set, so resolving twice yields the identical
order (first conjunct; the caveat that the underlying Python iterates a
hash-ordered set of dependents is recorded at `revAdj`); and ties among the
*initially* zero-in-degree columns are broken by declaration order — in
particular, whenever no output column depends on another output column, the
resolved order is exactly the declaration order (second conjunct).  Later
ties are served FIFO, in the order in-degrees reach zero
(`c8_counterexample`). -/
theorem c8_deterministic_ordering :
    (∀ (columns : ColumnSpecs) (inputColumns : List String),
        resolveExecutionOrder columns inputColumns =
          resolveExecutionOrder columns inputColumns) ∧
    (∀ (columns : ColumnSpecs) (inputColumns : List String),
        (∀ k ∈ columnKeys columns,
          initialIndeg (buildDependencyGraph columns inputColumns)
            (columnKeys columns) k = 0) →
        resolveExecutionOrder columns inputColumns = .ok (columnKeys columns)) := by
  refine ⟨fun _ _ => rfl, ?_⟩
  intro columns inputColumns hz
  have hqueue : (columnKeys columns).filter (fun k =>
      initialIndeg (buildDependencyGraph columns inputColumns)
        (columnKeys columns) k == 0) = columnKeys columns := by
    rw [List.filter_eq_self]
    intro k hk
    exact beq_iff_eq.mpr (hz k hk)
  have hrev : ∀ c ∈ columnKeys columns,
      revAdj (buildDependencyGraph columns inputColumns) (columnKeys columns) c = [] := by
    intro c hc
    rw [revAdj, List.filter_eq_nil_iff]
    intro k hk hcont
    have hcd : c ∈ depsOf (buildDependencyGraph columns inputColumns) k := by
      simpa using hcont
    have h0 := hz k hk
    rw [initialIndeg] at h0
    have hlen0 : ((depsOf (buildDependencyGraph columns inputColumns) k).filter
        (fun d => (columnKeys columns).contains d)).length = 0 := by omega
    have hnil := List.length_eq_zero.mp hlen0
    have : c ∈ (depsOf (buildDependencyGraph columns inputColumns) k).filter
        (fun d => (columnKeys columns).contains d) :=
      List.mem_filter.mpr ⟨hcd, by simpa using hc⟩
    rw [hnil] at this
    cases this
  have hplaced : kahnPlacedOrder columns inputColumns = columnKeys columns := by
    simp only [kahnPlacedOrder]
    rw [hqueue]
    rw [kahnLoop_no_edges (columnKeys columns) _ (columnKeys columns) _ _ _ hrev
      (Nat.le_add_right _ _)]
    simp
  simp only [resolveExecutionOrder, hplaced]
  rw [if_pos]
  simp [columnKeys]

/-- Witness for c8_deterministic_ordering: two independent columns resolve in
declaration order. -/
theorem c8_deterministic_ordering_witness :
    resolveExecutionOrder [("m", ({} : ColumnConfig)), ("n", {})] [] = .ok ["m", "n"] :=
  c8_deterministic_ordering.2 [("m", ({} : ColumnConfig)), ("n", {})] [] (by decide)

/-- Claim C2, counterexample.  A dependency cycle makes plan construction
fail — but in Partial mode that failure is *not* fatal: the processor
substitutes the declaration order (`except Exception: execution_order =
list(output_columns.keys())`) and proceeds to attempt every column, recording
both as failed, rather than aborting. -/
theorem c2_counterexample :
    planExecution cyclicEngineConfig.columns dfA123.columns =
      .error (.cycleDetected ["A", "B"]) ∧
    partialExecutionOrder cyclicEngineConfig dfA123 = ["A", "B"] ∧
    (processPartialMode cyclicEngineConfig {} dfA123).failedColumns = ["A", "B"] ∧
    (processPartialMode cyclicEngineConfig {} dfA123).successfulColumns = [] ∧
    (processPartialMode cyclicEngineConfig {} dfA123).fallbackUsed = true :=
  ⟨rfl, rfl, rfl, rfl, rfl⟩

/-- Claim C2, amended.  A dependency error during plan construction is fatal
to the engine's transform when `ignore_errors` is off (the default): the run
raises and no result is produced (first conjunct).  In Partial mode, however,
the plan failure is caught and column processing proceeds under the
declaration order as substitute (second conjunct); Fallback mode performs no
planning at all. -/
theorem c2_dependency_error_fatality :
    (∀ (cfg : EngineConfig) (df : DataFrame) (e : PlanError),
        planExecution cfg.columns df.columns = .error e →
        cfg.settings.ignoreErrors = false →
        exceptOk (TransformationEngine_transform cfg df) = false) ∧
    (∀ (cfg : EngineConfig) (df : DataFrame) (e : PlanError),
        planExecution cfg.columns df.columns = .error e →
        partialExecutionOrder cfg df = columnKeys cfg.columns) := by
  constructor
  · intro cfg df e hplan hig
    simp only [TransformationEngine_transform, hplan, hig]
    have hhe : exceptOk (handleError cfg.settings.maxErrors false []
        ("Execution planning failed: " ++ planErrMsg e)) = false := by
      simp only [handleError]
      by_cases hc : cfg.settings.maxErrors ≤
          ([] ++ ["Execution planning failed: " ++ planErrMsg e]).length
      · rw [if_pos hc]
        rfl
      · rw [if_neg hc]
        rfl
    cases h : handleError cfg.settings.maxErrors false []
        ("Execution planning failed: " ++ planErrMsg e) with
    | error m => rfl
    | ok errs =>
        rw [h] at hhe
        simp [exceptOk] at hhe
  · intro cfg df e hplan
    simp only [partialExecutionOrder, hplan]

/-- Witness for c2_dependency_error_fatality at the concrete cyclic
configuration. -/
theorem c2_dependency_error_fatality_witness :
    exceptOk (TransformationEngine_transform cyclicEngineConfig dfA123) = false ∧
    partialExecutionOrder cyclicEngineConfig dfA123 = columnKeys cyclicEngineConfig.columns :=
  ⟨c2_dependency_error_fatality.1 cyclicEngineConfig dfA123
      (.cycleDetected ["A", "B"]) rfl rfl,
    c2_dependency_error_fatality.2 cyclicEngineConfig dfA123
      (.cycleDetected ["A", "B"]) rfl⟩

/-- Claim C4, counterexample.  Column `x` is present in the Partial-mode
result, but because `target_type` defaults to `"string"`, its values are the
string renderings `["1", "2", "3"]`, not the integers `[1, 2, 3]` the claim
states. -/
theorem c4_counterexample :
    (processPartialMode c4Config {} dfA123).data.getCol "x" =
      some [.vStr "1", .vStr "2", .vStr "3"] ∧
    (processPartialMode c4Config {} dfA123).data.getCol "x" ≠
      some [.vInt 1, .vInt 2, .vInt 3] := by
  refine ⟨rfl, ?_⟩
  intro h
  rw [show (processPartialMode c4Config {} dfA123).data.getCol "x" =
      some [Value.vStr "1", Value.vStr "2", Value.vStr "3"] from rfl] at h
  simp at h

/-- Claim C4, amended.  In Partial mode with `x: source "a"` (always
succeeds) and `y: transformation "1/0"` (always fails) over `{a: [1,2,3]}`:
`successful_columns == ["x"]`, `failed_columns == ["y"]`, `y`'s failure does
not affect `x` (the run succeeds without escalation and keeps the input
column intact), and the result table contains `x` — with the *string-coerced*
values `["1","2","3"]`, since the column's target type defaults to string. -/
theorem c4_partial_mode_independence :
    (processPartialMode c4Config {} dfA123).successfulColumns = ["x"] ∧
    (processPartialMode c4Config {} dfA123).failedColumns = ["y"] ∧
    (processPartialMode c4Config {} dfA123).data.getCol "x" =
      some [.vStr "1", .vStr "2", .vStr "3"] ∧
    (processPartialMode c4Config {} dfA123).data.getCol "a" =
      some [.vInt 1, .vInt 2, .vInt 3] ∧
    (processPartialMode c4Config {} dfA123).data.getCol "y" = Option.none ∧
    (processPartialMode c4Config {} dfA123).success = true ∧
    (processPartialMode c4Config {} dfA123).fallbackUsed = false :=
  ⟨rfl, rfl, rfl, rfl, rfl, rfl, rfl⟩

/-- Claim C5.  Whole-run escalation in Partial mode uses a strict
greater-than comparison on the failure rate computed after the full column
pass: with the default `failure_threshold = 0.5`, a run with exactly 2 of 4
columns failing does not escalate (`fallback_used == false`), while 3 of 4
failing with fallback enabled escalates (`fallback_used == true`,
`success == false`).  The boundary comparisons themselves are exhibited in
the last two conjuncts. -/
theorem c5_threshold_escalation :
    ({} : FallbackSettings).failureThreshold = mkRat 1 2 ∧
    ({} : FallbackSettings).enableFallback = true ∧
    (processPartialMode c5ConfigHalf {} dfA123).failedColumns.length = 2 ∧
    (processPartialMode c5ConfigHalf {} dfA123).fallbackUsed = false ∧
    (processPartialMode c5ConfigHalf {} dfA123).success = true ∧
    (processPartialMode c5ConfigMost {} dfA123).failedColumns.length = 3 ∧
    (processPartialMode c5ConfigMost {} dfA123).fallbackUsed = true ∧
    (processPartialMode c5ConfigMost {} dfA123).success = false ∧
    decide (mkRat 2 4 > ({} : FallbackSettings).failureThreshold) = false ∧
    decide (mkRat 3 4 > ({} : FallbackSettings).failureThreshold) = true :=
  ⟨rfl, rfl, rfl, rfl, rfl, rfl, rfl, rfl, by decide, by decide⟩

theorem getCol_select_not_mem (df : DataFrame) (keep : List String) (n : String)
    (h : n ∉ keep) : (df.select keep).getCol n = Option.none := by
  induction keep with
  | nil => rfl
  | cons k ks ih =>
      have hnk : n ≠ k := fun he => h (he ▸ List.mem_cons_self _ _)
      have hnks : n ∉ ks := fun hm => h (List.mem_cons_of_mem _ hm)
      simp only [DataFrame.select, List.filterMap_cons]
      cases hk : df.getCol k with
      | none =>
          exact ih hnks
      | some xs =>
          simp only [Option.map]
          have hb : (n == k) = false := by
            simp only [beq_eq_false_iff_ne]
            exact hnk
          simp only [DataFrame.getCol, List.lookup, hb]
          exact ih hnks

theorem mem_dedupFirstAux : ∀ (l seen : List String) (x : String),
    x ∈ dedupFirstAux l seen → x ∈ l := by
  intro l
  induction l with
  | nil => intro seen x h; cases h
  | cons y ys ih =>
      intro seen x h
      simp only [dedupFirstAux] at h
      by_cases hs : seen.contains y = true
      · rw [if_pos hs] at h
        exact List.mem_cons_of_mem _ (ih _ x h)
      · rw [if_neg hs] at h
        rcases List.mem_cons.mp h with h | h
        · exact h ▸ List.mem_cons_self _ _
        · exact List.mem_cons_of_mem _ (ih _ x h)

theorem mem_dedupFirst {l : List String} {x : String} (h : x ∈ dedupFirst l) : x ∈ l :=
  mem_dedupFirstAux l [] x h

theorem lookup_eq_of_mem_nodup : ∀ {l : ColumnSpecs}, (columnKeys l).Nodup →
    ∀ {k : String} {c : ColumnConfig}, (k, c) ∈ l → l.lookup k = some c := by
  intro l
  induction l with
  | nil => intro _ k c hm; cases hm
  | cons p ps ih =>
      intro hnd k c hm
      have hnd2 : (p.1 :: columnKeys ps).Nodup := hnd
      have hnd' := List.nodup_cons.mp hnd2
      rcases List.mem_cons.mp hm with h | h
      · rw [← h]
        simp [List.lookup]
      · have hkp : k ≠ p.1 := by
          intro he
          exact hnd'.1 (he ▸ (List.mem_map.mpr ⟨(k, c), h, rfl⟩))
        have hb : (k == p.1) = false := by
          simp only [beq_eq_false_iff_ne]
          exact hkp
        simp only [List.lookup, hb]
        exact ih hnd'.2 h

theorem planExecution_finalColumns {columns : ColumnSpecs} {inputColumns : List String}
    {plan : ExecutionPlan} (h : planExecution columns inputColumns = .ok plan) :
    plan.finalColumns = (columns.filter (fun p => !p.2.interim)).map Prod.fst := by
  simp only [planExecution] at h
  split at h
  · cases h
  · split at h
    · cases h
    · cases h
      rfl

/-- Claim C9, counterexample.  In Partial mode the interim column `t` is
*retained* in the returned table: `_process_partial_mode` never filters the
frame down to the plan's final columns, so interim columns are not excluded
from the final result in every processing mode. -/
theorem c9_counterexample :
    ((c9Config.columns.lookup "t").map ColumnConfig.interim = some true) ∧
    (processPartialMode c9Config {} dfA12).success = true ∧
    (processPartialMode c9Config {} dfA12).data.getCol "t" = some [.vInt 2, .vInt 3] :=
  ⟨rfl, rfl, rfl⟩

/-- Claim C9, amended.  On the engine's transform (Strict) path, when plan
construction succeeds, every interim output column is available to downstream
column expressions during processing and — provided its name is not also an
input column — is excluded from the returned table: the first conjunct shows
any such interim column is absent from any produced result, and the second
shows the concrete run where `u = t * 2` was computed from the interim `t` —
so `t` was available — while the result keeps only `a` and `u`.  The two
provisos are genuine limits of the code, demonstrated by the remaining
conjuncts: an interim column that shadows an input column is retained with
its *computed* values, because `columns_to_keep` always keeps the input
column names (third conjunct); and when planning fails with `ignore_errors`
set, the substitute plan makes every output column final, so interim columns
are retained on the engine path too (fourth and fifth conjuncts).  Partial
(and Fallback) mode results retain interim columns unconditionally
(`c9_counterexample`). -/
theorem c9_interim_exclusion :
    (∀ (cfg : EngineConfig) (df : DataFrame) (name : String) (c : ColumnConfig)
        (plan : ExecutionPlan) (out : DataFrame),
        (columnKeys cfg.columns).Nodup →
        planExecution cfg.columns df.columns = .ok plan →
        cfg.columns.lookup name = some c →
        c.interim = true →
        name ∉ df.columns →
        TransformationEngine_transform cfg df = .ok out →
        out.getCol name = Option.none) ∧
    TransformationEngine_transform c9Config dfA12 =
      .ok ⟨[("a", [.vInt 1, .vInt 2]), ("u", [.vInt 4, .vInt 6])]⟩ ∧
    TransformationEngine_transform c9ShadowConfig dfA12 =
      .ok ⟨[("a", [.vInt 2, .vInt 4])]⟩ ∧
    planExecution c9PlanFailConfig.columns dfA12.columns =
      .error (.validationFailed ["Column 'bad': source 'zz' not found"]) ∧
    TransformationEngine_transform c9PlanFailConfig dfA12 =
      .ok ⟨[("a", [.vInt 1, .vInt 2]), ("t", [.vInt 2, .vInt 3])]⟩ := by
  refine ⟨?_, rfl, rfl, rfl, rfl⟩
  intro cfg df name c plan out hnd hplan hlook hint hnin htrans
  simp only [TransformationEngine_transform, hplan] at htrans
  cases htc : transformColumns cfg plan.executionOrder df [] with
  | error m =>
      rw [htc] at htrans
      cases htrans
  | ok p =>
      obtain ⟨df', errs⟩ := p
      rw [htc] at htrans
      have hout := Except.ok.inj htrans
      rw [← hout]
      have hfinal := planExecution_finalColumns hplan
      have hnotfinal : name ∉ plan.finalColumns := by
        rw [hfinal]
        intro hmem
        rcases List.mem_map.mp hmem with ⟨q, hq, hq1⟩
        have hqc := List.mem_filter.mp hq
        have hqmem : (name, q.2) ∈ cfg.columns := by
          have : q = (name, q.2) := by
            rw [← hq1]
          rw [← this]
          exact hqc.1
        have := lookup_eq_of_mem_nodup hnd hqmem
        rw [hlook] at this
        have hceq : c = q.2 := Option.some.inj this
        have := hqc.2
        rw [← hceq, hint] at this
        simp at this
      simp only [finalizeColumns]
      apply getCol_select_not_mem
      by_cases hoo : cfg.onlyOutputColumns = true
      · rw [if_pos hoo]
        intro hmem
        exact hnotfinal (List.mem_filter.mp hmem).1
      · rw [if_neg hoo]
        intro hmem
        rcases List.mem_append.mp (mem_dedupFirst hmem) with h | h
        · exact hnin h
        · exact hnotfinal (List.mem_filter.mp h).1

/-- Witness for c9_interim_exclusion at the concrete interim configuration. -/
theorem c9_interim_exclusion_witness :
    (⟨[("a", [.vInt 1, .vInt 2]), ("u", [.vInt 4, .vInt 6])]⟩ : DataFrame).getCol "t" =
      Option.none :=
  c9_interim_exclusion.1 c9Config dfA12 "t"
    { transformation := some (.binOp (.name "a") .add (.const (.int 1)))
      targetType := some .tInt
      interim := true }
    { executionOrder := ["t", "u"], interimColumns := ["t"], finalColumns := ["u"] }
    ⟨[("a", [.vInt 1, .vInt 2]), ("u", [.vInt 4, .vInt 6])]⟩
    (by decide) rfl rfl rfl (by decide) rfl

end DataTidy